import Mathlib

/-!
Shallow embedding of the GOS toolchain core (the `gos` Rust crate):
the AST data model from `src/ast.rs`, the compiler from `src/compiler.rs`
and the decompiler from `src/decompiler.rs`, followed by theorems settling
the specification claims about them.

Modelling conventions:
* `serde_json::Value` is modelled by `Gos.Json`; machine doubles carried by
  `serde_json::Number` are modelled abstractly by `Gos.F64` (finiteness flag
  plus the decimal rendering used when the number is displayed), since no
  claim depends on floating-point arithmetic.
* `HashMap<String, V>` is modelled by an association list with
  overwrite-on-insert (`Gos.hmInsert`); iteration follows insertion order.
  No settled claim depends on hash or B-tree iteration order.
* `usize` lengths of Rust strings are byte lengths, modelled by
  `String.utf8ByteSize`.
* `&mut String` output buffers are modelled by explicit state passing:
  each rendering function takes the buffer and returns the extended buffer.
* the process-wide (thread-local) `OPTIONS` cell of the decompiler is
  constant during one invocation; it is modelled by an explicit
  `DecompileOptions` argument threaded through every call.
* `Position` spans and `offset` tables are carried in the data model but are
  never consulted by the compiler or decompiler, faithfully to the source.
* Rust identifiers that are Lean keywords are renamed with a trailing
  underscore: field `end` → `end_`, field `alias` → `alias_`, field
  `with` → `with_`, variant `Import` → `import_`.
-/

set_option maxHeartbeats 1600000

namespace Gos

/-- Abstract model of an IEEE-754 double (`f64`): its finiteness flag and the
decimal rendering produced when it is displayed. No embedded operation
performs float arithmetic, so this carries exactly what the code consumes. -/
structure F64 where
  isFinite : Bool
  render : String
deriving DecidableEq, Repr

/-- Model of `serde_json::Number`: either a 64-bit signed integer (the only
integer form the compiler produces) or a finite double. -/
inductive JNum where
  | int (i : Int)
  | float (f : F64)
deriving DecidableEq, Repr

/-- Model of `serde_json::Value`. Objects are association lists of fields. -/
inductive Json where
  | null
  | bool (b : Bool)
  | num (n : JNum)
  | str (s : String)
  | arr (items : List Json)
  | obj (fields : List (String × Json))

/-- Association-list model of `HashMap<String, α>` (and of
`serde_json::Map` field storage). -/
abbrev HMap (α : Type) : Type := List (String × α)

/-- Lookup, as `HashMap::get` / `Map::get`. -/
def hmGet {α : Type} : HMap α → String → Option α
  | [], _ => none
  | (k', v) :: rest, k => if k' = k then some v else hmGet rest k

/-- Insert with overwrite, as `HashMap::insert` (last write wins, no
duplicate-key error). This keeps keys unique when starting from `[]`. -/
def hmInsert {α : Type} : HMap α → String → α → HMap α
  | [], k, v => [(k, v)]
  | (k', v') :: rest, k, v =>
      if k' = k then (k, v) :: rest else (k', v') :: hmInsert rest k v

/-- Removal returning the removed value, as `Map::remove`. -/
def hmRemove {α : Type} : HMap α → String → Option α × HMap α
  | [], _ => (none, [])
  | (k', v') :: rest, k =>
      if k' = k then (some v', rest)
      else
        let r := hmRemove rest k
        (r.1, (k', v') :: r.2)

/-- Byte length of a string, as Rust's `str::len`. -/
def strLen (s : String) : Nat := s.utf8ByteSize

/-- A run of `n` spaces. -/
def spacesStr (n : Nat) : String := String.mk (List.replicate n ' ')

/-- Whitespace trimming from both ends, as Rust's `str::trim` (whitespace
per `Char.isWhitespace`; the inputs of interest are ASCII). -/
def strTrim (s : String) : String :=
  String.mk (((s.data.dropWhile Char.isWhitespace).reverse.dropWhile
    Char.isWhitespace).reverse)

/-- Split of a character list at every occurrence of `c`, as Rust's
`str::split(c)` (always at least one group). -/
def splitOnChar (c : Char) : List Char → List (List Char)
  | [] => [[]]
  | x :: xs =>
      match splitOnChar c xs with
      | [] => [[]]
      | g :: gs => if x = c then [] :: g :: gs else (x :: g) :: gs

/-- Hexadecimal digit for values below 16 (used by the JSON string escaper). -/
def hexDigit (n : Nat) : Char :=
  if n < 10 then Char.ofNat (48 + n) else Char.ofNat (87 + (n % 16))

/-- Four-digit hexadecimal rendering of a small code point. -/
def hex4 (n : Nat) : String :=
  String.mk [hexDigit ((n / 4096) % 16), hexDigit ((n / 256) % 16),
             hexDigit ((n / 16) % 16), hexDigit (n % 16)]

/-- JSON escaping of one character, as serde_json's compact `Display`. -/
def jsonEscapeChar (c : Char) : String :=
  if c = '"' then "\\\""
  else if c = '\\' then "\\\\"
  else if c = '\n' then "\\n"
  else if c = '\r' then "\\r"
  else if c = '\t' then "\\t"
  else if c.toNat = 8 then "\\b"
  else if c.toNat = 12 then "\\f"
  else if c.toNat < 32 then "\\u" ++ hex4 c.toNat
  else String.singleton c

/-- JSON escaping of a whole string. -/
def jsonEscape (s : String) : String :=
  String.join (s.data.map jsonEscapeChar)

/-- Rendering of a `serde_json::Number`, as its `Display`. -/
def JNum.renderString : JNum → String
  | .int i => toString i
  | .float f => f.render

mutual

/-- Compact JSON rendering, as `serde_json::Value::to_string()`. -/
def Json.compactString : Json → String
  | .null => "null"
  | .bool b => if b then "true" else "false"
  | .num n => n.renderString
  | .str s => "\"" ++ jsonEscape s ++ "\""
  | .arr items => "[" ++ String.intercalate "," (Json.compactList items) ++ "]"
  | .obj fields => "\x7b" ++ String.intercalate "," (Json.compactFields fields) ++ "\x7d"

/-- Compact rendering of array elements. -/
def Json.compactList : List Json → List String
  | [] => []
  | x :: xs => Json.compactString x :: Json.compactList xs

/-- Compact rendering of object fields. -/
def Json.compactFields : List (String × Json) → List String
  | [] => []
  | (k, v) :: xs =>
      ("\"" ++ jsonEscape k ++ "\":" ++ Json.compactString v) :: Json.compactFields xs

end

/-- Field lookup, as `serde_json::Value::get` (None on non-objects). -/
def Json.get : Json → String → Option Json
  | .obj fields, k => hmGet fields k
  | _, _ => none

/-- String view, as `Value::as_str`. -/
def Json.as_str : Json → Option String
  | .str s => some s
  | _ => none

/-- Array view, as `Value::as_array`. -/
def Json.as_array : Json → Option (List Json)
  | .arr items => some items
  | _ => none

/-- Object view, as `Value::as_object`. -/
def Json.as_object : Json → Option (List (String × Json))
  | .obj fields => some fields
  | _ => none

/-- Signed-integer view, as `Value::as_i64` (floats yield none). -/
def Json.as_i64 : Json → Option Int
  | .num (.int i) => some i
  | _ => none

/-- Object test, as `Value::is_object`. -/
def Json.is_object : Json → Bool
  | .obj _ => true
  | _ => false

/-- Error taxonomy of `src/error.rs` (`ParseError`). -/
inductive ParseError where
  | syntaxError (line column : Nat) (message : String)
  | lexicalError (line column : Nat) (character : Char)
  | semanticError (line column : Nat) (message : String)
  | duplicateDefinition (name : String) (line column : Nat)
  | deprecatedFeature (feature : String) (line column : Nat) (suggestion : String)
  | unsupportedFeature (feature : String) (line column : Nat)
  | invalidValue (message : String) (line column : Nat)
  | general (message : String)
  | io (message : String)
  | pest (message : String)
deriving DecidableEq, Repr

/-- Result alias of `src/error.rs` (`ParseResult<T>`). -/
abbrev ParseResult (α : Type) : Type := Except ParseError α

/-! AST data model from `src/ast.rs`. -/

/-- Source span of a node (`Position`); the Rust field `end` is spelled
`end_` because `end` is reserved in Lean. -/
structure Position where
  line : Nat
  end_line : Nat
  start : Nat
  end_ : Nat
deriving DecidableEq, Repr

/-- Grammar position tag of an identifier (`SymbolKind`). -/
inductive SymbolKind where
  | unknown
  | importName
  | importAsName
  | varAttr
  | varAsName
  | varRef
  | graphProperty
  | graphAsName
  | refGraphName
  | graphTemplate
  | nodeName
  | nodeOutput
  | nodeInput
  | nodeDepend
  | nodeProperty
  | nodeAttr
  | nodeAsName
  | opAsName
  | opMetaAttr
  | opInputAttr
  | opOutputAttr
  | opConfigAttr
  | nodeAttrName
  | nodeInputKey
  | opSpecDtype
  | forLoopInputs
  | forLoopOutputs
deriving DecidableEq, Repr

/-- Identifier with kind tag (`Symbol`). -/
structure Symbol where
  position : Position
  name : String
  kind : SymbolKind
deriving DecidableEq, Repr

/-- Comment node. -/
structure Comment where
  position : Position
  value : String
deriving DecidableEq, Repr

/-- Reference to another symbol (`Ref`). -/
structure Ref where
  name : Symbol
deriving DecidableEq, Repr

/-- String literal. -/
structure StringLiteral where
  position : Position
  value : String
deriving DecidableEq, Repr

/-- Multi-line string literal. -/
structure MultiLineStringLiteral where
  position : Position
  value : String
deriving DecidableEq, Repr

/-- Integer literal (`NumberLiteral`, value an `i64`). -/
structure NumberLiteral where
  position : Position
  raw : String
  value : Int
deriving DecidableEq, Repr

/-- Float literal (value a machine double, modelled by `F64`). -/
structure FloatLiteral where
  position : Position
  raw : String
  value : F64
deriving DecidableEq, Repr

/-- Boolean literal. -/
structure BoolLiteral where
  position : Position
  raw : String
  value : Bool
deriving DecidableEq, Repr

/-- Abstract model of `chrono::DateTime<Utc>` (never consulted). -/
structure DateTimeUtc where
  timestamp : Int
deriving DecidableEq, Repr

/-- Date-time literal (deprecated in the grammar). -/
structure DateTimeLiteral where
  position : Position
  raw : String
  value : DateTimeUtc
deriving DecidableEq, Repr

/-- Date literal. -/
structure DateLiteral where
  position : Position
  value : String
deriving DecidableEq, Repr

/-- Null literal. -/
structure NullLiteral where
  position : Position
deriving DecidableEq, Repr

/-- One imported path with optional alias (`ImportItem`). -/
structure ImportItem where
  position : Position
  path : Symbol
  alias_ : Option Symbol
deriving DecidableEq, Repr

/-- Import statement. -/
structure Import where
  position : Position
  items : List ImportItem
deriving DecidableEq, Repr

/-- Positional node inputs (`NodeInputTuple`). -/
structure NodeInputTuple where
  position : Position
  items : List Symbol
deriving DecidableEq, Repr

/-- Values of one keyed node input (`NodeInputValues`). -/
structure NodeInputValues where
  position : Position
  items : List Symbol
deriving DecidableEq, Repr

/-- One keyed node input (`NodeInputKeyItem`). -/
structure NodeInputKeyItem where
  position : Position
  key : Symbol
  value : NodeInputValues
deriving DecidableEq, Repr

/-- Keyed node inputs (`NodeInputKeyDef`). -/
structure NodeInputKeyDef where
  position : Position
  items : List NodeInputKeyItem
deriving DecidableEq, Repr

/-- Node input forms (`NodeInputDef`). -/
inductive NodeInputDef where
  | tuple (t : NodeInputTuple)
  | keyValue (kv : NodeInputKeyDef)
deriving DecidableEq, Repr

/-- Closed numeric interval. -/
structure ClosedInterval where
  position : Position
  ge : Option NumberLiteral
  le : Option NumberLiteral
deriving DecidableEq, Repr

/-- Mixed (open/closed) numeric interval. -/
structure MixInterval where
  position : Position
  ge : Option NumberLiteral
  gt : Option NumberLiteral
  le : Option NumberLiteral
  lt : Option NumberLiteral
deriving DecidableEq, Repr

mutual

/-- Tagged union of all AST node types (`AstNodeEnum`). -/
inductive AstNodeEnum where
  | module (m : Module)
  | comment (c : Comment)
  | symbol (s : Symbol)
  | stringLiteral (s : StringLiteral)
  | multiLineStringLiteral (s : MultiLineStringLiteral)
  | numberLiteral (n : NumberLiteral)
  | floatLiteral (f : FloatLiteral)
  | boolLiteral (b : BoolLiteral)
  | dateTimeLiteral (d : DateTimeLiteral)
  | dateLiteral (d : DateLiteral)
  | nullLiteral (n : NullLiteral)
  | dictStatement (d : DictStatement)
  | dictItem (d : DictItem)
  | listStatement (l : ListStatement)
  | tupleStatement (t : TupleStatement)
  | setStatement (s : SetStatement)
  | import_ (i : Import)
  | importItem (i : ImportItem)
  | attrDef (a : AttrDef)
  | refDef (r : RefDef)
  | varDef (v : VarDef)
  | graphDef (g : GraphDef)
  | nodeDef (n : NodeDef)
  | nodeBlock (n : NodeBlock)
  | nodeInputTuple (n : NodeInputTuple)
  | nodeInputKeyDef (n : NodeInputKeyDef)
  | nodeInputKeyItem (n : NodeInputKeyItem)
  | nodeInputValues (n : NodeInputValues)
  | nodeAttr (n : NodeAttr)
  | conditionDef (c : ConditionDef)
  | conditionBlock (c : ConditionBlock)
  | conditionStatement (c : ConditionStatement)
  | forLoopBlock (f : ForLoopBlock)
  | opDef (o : OpDef)
  | opMeta (o : OpMeta)
  | opInput (o : OpInput)
  | opOutput (o : OpOutput)
  | opConfig (o : OpConfig)
  | opSpec (o : OpSpec)
  | opSpecItem (o : OpSpecItem)
  | closedInterval (c : ClosedInterval)
  | mixInterval (m : MixInterval)

/-- Tree root: ordered top-level statements (`Module`). -/
inductive Module where
  | mk (position : Position) (children : List AstNodeEnum)

/-- Dictionary literal (`DictStatement`). -/
inductive DictStatement where
  | mk (position : Position) (items : List DictItem)

/-- Key/value pair of a dictionary literal (`DictItem`). -/
inductive DictItem where
  | mk (position : Position) (key : AstNodeEnum) (value : AstNodeEnum)

/-- List literal (`ListStatement`). -/
inductive ListStatement where
  | mk (position : Position) (items : List AstNodeEnum)

/-- Tuple literal (`TupleStatement`). -/
inductive TupleStatement where
  | mk (position : Position) (items : List AstNodeEnum)

/-- Set literal (`SetStatement`). -/
inductive SetStatement where
  | mk (position : Position) (items : List AstNodeEnum)

/-- Attribute definition `name = value [if cond [else v2]]` (`AttrDef`). -/
inductive AttrDef where
  | mk (position : Position) (name : Symbol) (value : AstNodeEnum)
       (condition : Option AstNodeEnum) (else_value : Option AstNodeEnum)

/-- Reference definition (`RefDef`). -/
inductive RefDef where
  | mk (position : Position) (name : Symbol) (value : Symbol)
       (condition : Option AstNodeEnum) (default : Option AstNodeEnum)

/-- Variable block (`VarDef`). -/
inductive VarDef where
  | mk (position : Position) (children : List AstNodeEnum)
       (alias_ : Option Symbol) (offset : Option (HMap Nat))

/-- Graph block (`GraphDef`). -/
inductive GraphDef where
  | mk (position : Position) (children : List AstNodeEnum)
       (alias_ : Option Symbol) (version : Option AstNodeEnum)
       (template_graph : Option Symbol) (template_version : Option AstNodeEnum)
       (offset : Option (HMap Nat))

/-- Node definition `outs = call` (`NodeDef`). -/
inductive NodeDef where
  | mk (position : Position) (outputs : List Symbol) (value : NodeBlock)

/-- Node call with inputs and attribute chain (`NodeBlock`). -/
inductive NodeBlock where
  | mk (position : Position) (name_or_ref : Symbol)
       (inputs : Option NodeInputDef) (attrs : Option (List NodeAttr))

/-- One chained node attribute (`NodeAttr`). -/
inductive NodeAttr where
  | mk (position : Position) (name : Symbol) (value : NodeAttrValue)
       (offset : Option (HMap Nat))

/-- Value of a chained node attribute (`NodeAttrValue`). -/
inductive NodeAttrValue where
  | symbol (s : Symbol)
  | string (s : StringLiteral)
  | list (items : List AstNodeEnum)

/-- Condition definition (`ConditionDef`). -/
inductive ConditionDef where
  | mk (position : Position) (outputs : List Symbol) (value : ConditionBlock)

/-- Condition block (`ConditionBlock`). -/
inductive ConditionBlock where
  | mk (position : Position) (condition : ConditionExpr)
       (true_branch : AstNodeEnum) (false_branch : AstNodeEnum)

/-- Condition expression (`ConditionExpr`). -/
inductive ConditionExpr where
  | statement (s : ConditionStatement)
  | block (b : NodeBlock)

/-- Binary condition statement (`ConditionStatement`). -/
inductive ConditionStatement where
  | mk (position : Position) (left_operand : AstNodeEnum)
       (right_operand : AstNodeEnum) (operator : String)

/-- For-loop block (`ForLoopBlock`). -/
inductive ForLoopBlock where
  | mk (position : Position) (inputs : Symbol) (outputs : List Symbol)
       (node : NodeBlock) (condition : Option AstNodeEnum)
       (offset : Option (HMap Nat))

/-- Operation block (`OpDef`). -/
inductive OpDef where
  | mk (position : Position) (children : List AstNodeEnum)
       (alias_ : Option Symbol) (version : Option String)
       (offset : Option (HMap Nat))

/-- Operation meta section (`OpMeta`). -/
inductive OpMeta where
  | mk (position : Position) (children : List AttrDef)
       (offset : Option (HMap Nat))

/-- Operation input section (`OpInput`). -/
inductive OpInput where
  | mk (position : Position) (children : List AstNodeEnum)
       (offset : Option (HMap Nat))

/-- Operation output section (`OpOutput`). -/
inductive OpOutput where
  | mk (position : Position) (children : List AstNodeEnum)
       (offset : Option (HMap Nat))

/-- Operation config section (`OpConfig`). -/
inductive OpConfig where
  | mk (position : Position) (children : List AstNodeEnum)
       (offset : Option (HMap Nat))

/-- Operation specification entry (`OpSpec`). -/
inductive OpSpec where
  | mk (position : Position) (name : Symbol) (items : Option (List OpSpecItem))

/-- One item of an operation specification (`OpSpecItem`). -/
inductive OpSpecItem where
  | mk (position : Position) (name : String) (value : AstNodeEnum)

end

/-- Projection: children of a module. -/
def Module.children : Module → List AstNodeEnum
  | .mk _ c => c

/-- Projection: items of a dictionary literal. -/
def DictStatement.items : DictStatement → List DictItem
  | .mk _ i => i

/-- Projection: key of a dictionary item. -/
def DictItem.key : DictItem → AstNodeEnum
  | .mk _ k _ => k

/-- Projection: value of a dictionary item. -/
def DictItem.value : DictItem → AstNodeEnum
  | .mk _ _ v => v

/-- Projection: items of a list literal. -/
def ListStatement.items : ListStatement → List AstNodeEnum
  | .mk _ i => i

/-- Projection: name of an attribute definition. -/
def AttrDef.name : AttrDef → Symbol
  | .mk _ n _ _ _ => n

/-- Projection: value of an attribute definition. -/
def AttrDef.value : AttrDef → AstNodeEnum
  | .mk _ _ v _ _ => v

/-- Projection: children of a variable block. -/
def VarDef.children : VarDef → List AstNodeEnum
  | .mk _ c _ _ => c

/-- Projection: alias of a variable block. -/
def VarDef.alias_ : VarDef → Option Symbol
  | .mk _ _ a _ => a

/-- Projection: children of a graph block. -/
def GraphDef.children : GraphDef → List AstNodeEnum
  | .mk _ c _ _ _ _ _ => c

/-- Projection: alias of a graph block. -/
def GraphDef.alias_ : GraphDef → Option Symbol
  | .mk _ _ a _ _ _ _ => a

/-- Projection: version of a graph block. -/
def GraphDef.version : GraphDef → Option AstNodeEnum
  | .mk _ _ _ v _ _ _ => v

/-- Projection: template graph of a graph block. -/
def GraphDef.template_graph : GraphDef → Option Symbol
  | .mk _ _ _ _ t _ _ => t

/-- Projection: template version of a graph block. -/
def GraphDef.template_version : GraphDef → Option AstNodeEnum
  | .mk _ _ _ _ _ t _ => t

/-- Projection: outputs of a node definition. -/
def NodeDef.outputs : NodeDef → List Symbol
  | .mk _ o _ => o

/-- Projection: call of a node definition. -/
def NodeDef.value : NodeDef → NodeBlock
  | .mk _ _ v => v

/-- Projection: callee name of a node call (the compiler reads this field as
`node_block.name`). -/
def NodeBlock.name_or_ref : NodeBlock → Symbol
  | .mk _ n _ _ => n

/-- Projection: inputs of a node call. -/
def NodeBlock.inputs : NodeBlock → Option NodeInputDef
  | .mk _ _ i _ => i

/-- Projection: attribute chain of a node call. -/
def NodeBlock.attrs : NodeBlock → Option (List NodeAttr)
  | .mk _ _ _ a => a

/-- Projection: name of a chained node attribute. -/
def NodeAttr.name : NodeAttr → Symbol
  | .mk _ n _ _ => n

/-- Projection: value of a chained node attribute. -/
def NodeAttr.value : NodeAttr → NodeAttrValue
  | .mk _ _ v _ => v

/-- Projection: children of an operation block. -/
def OpDef.children : OpDef → List AstNodeEnum
  | .mk _ c _ _ _ => c

/-- Projection: alias of an operation block. -/
def OpDef.alias_ : OpDef → Option Symbol
  | .mk _ _ a _ _ => a

/-- Projection: version of an operation block. -/
def OpDef.version : OpDef → Option String
  | .mk _ _ _ v _ => v

/-- Projection: children of an operation meta section. -/
def OpMeta.children : OpMeta → List AttrDef
  | .mk _ c _ => c

/-- Projection: children of an operation input section. -/
def OpInput.children : OpInput → List AstNodeEnum
  | .mk _ c _ => c

/-- Projection: children of an operation output section. -/
def OpOutput.children : OpOutput → List AstNodeEnum
  | .mk _ c _ => c

/-- Projection: children of an operation config section. -/
def OpConfig.children : OpConfig → List AstNodeEnum
  | .mk _ c _ => c

/-- Projection: name of an operation specification entry. -/
def OpSpec.name : OpSpec → Symbol
  | .mk _ n _ => n

/-- Projection: items of an operation specification entry. -/
def OpSpec.items : OpSpec → Option (List OpSpecItem)
  | .mk _ _ i => i

/-- Projection: name of an operation specification item. -/
def OpSpecItem.name : OpSpecItem → String
  | .mk _ n _ => n

/-- Projection: value of an operation specification item. -/
def OpSpecItem.value : OpSpecItem → AstNodeEnum
  | .mk _ _ v => v

/-! Compiler from `src/compiler.rs`. The `Compiler` struct's `options` field
is never consulted by any compilation method, so the methods are embedded as
plain functions. -/

/-- Compilation options (`CompileOptions`); carried but never read during
compilation. -/
structure CompileOptions where
  return_op_names : Bool
  return_subgraphs : Bool
  keep_order : Bool
  plugin : Option String
deriving DecidableEq, Repr

/-- Node dictionary of the IR (`NodeDict`). Serde names: `alias_` is
serialized as "as", `with_` as "with". -/
structure NodeDict where
  op_name : Option String
  ref_graph : Option String
  version : Option String
  outputs : Option (List String)
  inputs : Option (List String)
  depends : Option (List String)
  with_ : Option (HMap Json)
  properties : Option (HMap Json)
  alias_ : Option String
  override_flag : Option Bool
  for_loop : Option (HMap Json)

/-- Graph dictionary of the IR (`GraphDict`); `alias_` serializes as "as". -/
structure GraphDict where
  properties : Option (HMap Json)
  nodes : Option (HMap NodeDict)
  alias_ : Option String
  version : Option String
  template_graph : Option String
  template_version : Option String

/-- Operation dictionary of the IR (`OpDict`). -/
structure OpDict where
  metas : Option (HMap Json)
  inputs : Option (HMap (HMap Json))
  outputs : Option (HMap (HMap Json))
  configs : Option (HMap (HMap Json))
  graph : Option GraphDict

/-- Compilation output (`CompileResult`). -/
structure CompileResult where
  graphs : Option (List GraphDict)
  ops : Option (List OpDict)
  vars : Option (HMap Json)
  gos_version : String
  op_names : Option (List String)
  subgraphs : Option (List String)

/-- Debug tag of `std::mem::discriminant(node)` per variant. The Rust Debug
output is opaque; it is modelled by the variant's name, which is all the
embedded code observes (the placeholder string below). -/
def discriminant_debug : AstNodeEnum → String
  | .module _ => "Module"
  | .comment _ => "Comment"
  | .symbol _ => "Symbol"
  | .stringLiteral _ => "StringLiteral"
  | .multiLineStringLiteral _ => "MultiLineStringLiteral"
  | .numberLiteral _ => "NumberLiteral"
  | .floatLiteral _ => "FloatLiteral"
  | .boolLiteral _ => "BoolLiteral"
  | .dateTimeLiteral _ => "DateTimeLiteral"
  | .dateLiteral _ => "DateLiteral"
  | .nullLiteral _ => "NullLiteral"
  | .dictStatement _ => "DictStatement"
  | .dictItem _ => "DictItem"
  | .listStatement _ => "ListStatement"
  | .tupleStatement _ => "TupleStatement"
  | .setStatement _ => "SetStatement"
  | .import_ _ => "Import"
  | .importItem _ => "ImportItem"
  | .attrDef _ => "AttrDef"
  | .refDef _ => "RefDef"
  | .varDef _ => "VarDef"
  | .graphDef _ => "GraphDef"
  | .nodeDef _ => "NodeDef"
  | .nodeBlock _ => "NodeBlock"
  | .nodeInputTuple _ => "NodeInputTuple"
  | .nodeInputKeyDef _ => "NodeInputKeyDef"
  | .nodeInputKeyItem _ => "NodeInputKeyItem"
  | .nodeInputValues _ => "NodeInputValues"
  | .nodeAttr _ => "NodeAttr"
  | .conditionDef _ => "ConditionDef"
  | .conditionBlock _ => "ConditionBlock"
  | .conditionStatement _ => "ConditionStatement"
  | .forLoopBlock _ => "ForLoopBlock"
  | .opDef _ => "OpDef"
  | .opMeta _ => "OpMeta"
  | .opInput _ => "OpInput"
  | .opOutput _ => "OpOutput"
  | .opConfig _ => "OpConfig"
  | .opSpec _ => "OpSpec"
  | .opSpecItem _ => "OpSpecItem"
  | .closedInterval _ => "ClosedInterval"
  | .mixInterval _ => "MixInterval"

/-- Object key of a converted dictionary key (the DictStatement arm's
`match`: a string stays itself, anything else is rendered with
`Value::to_string()`). -/
def dict_key_of (kv : Json) : String :=
  match kv with
  | .str s => s
  | other => other.compactString

/-- Placeholder string produced by the converter's catch-all arm
(`format!("unsupported_ast_node_{:?}", std::mem::discriminant(node))`). -/
def unsupported_placeholder (n : AstNodeEnum) : String :=
  "unsupported_ast_node_" ++ discriminant_debug n

mutual

/-- AST-to-IR value conversion (`Compiler::convert_ast_to_value`). -/
def convert_ast_to_value : AstNodeEnum → ParseResult Json
  | .stringLiteral s => .ok (.str s.value)
  | .multiLineStringLiteral s => .ok (.str s.value)
  | .numberLiteral n => .ok (.num (.int n.value))
  | .floatLiteral f =>
      if f.value.isFinite then .ok (.num (.float f.value)) else .ok .null
  | .boolLiteral b => .ok (.bool b.value)
  | .nullLiteral _ => .ok .null
  | .symbol s => .ok (.str s.name)
  | .listStatement (.mk _ items) => do
      let values ← convert_value_list items
      .ok (.arr values)
  | .dictStatement (.mk _ items) => do
      let fields ← convert_dict_items items []
      .ok (.obj fields)
  | n => .ok (.str (unsupported_placeholder n))

/-- Element-wise fail-fast conversion of a literal list
(the `collect::<Result<Vec<_>, _>>()` in the ListStatement arm). -/
def convert_value_list : List AstNodeEnum → ParseResult (List Json)
  | [] => .ok []
  | x :: xs => do
      let v ← convert_ast_to_value x
      let vs ← convert_value_list xs
      .ok (v :: vs)

/-- Conversion of dictionary items into an object (the DictStatement arm:
non-string keys are rendered with `Value::to_string()`). -/
def convert_dict_items : List DictItem → HMap Json → ParseResult (HMap Json)
  | [], acc => .ok acc
  | (.mk _ key value) :: xs, acc => do
      let kv ← convert_ast_to_value key
      let k := dict_key_of kv
      let v ← convert_ast_to_value value
      convert_dict_items xs (hmInsert acc k v)

end

mutual

/-- Variable substitution (`Compiler::resolve_variable_references`): a string
equal to a table key is replaced by the stored value; arrays and objects are
resolved recursively; everything else is returned unchanged. -/
def resolve_variable_references : Json → HMap Json → ParseResult Json
  | .str s, vars =>
      match hmGet vars s with
      | some var_value => .ok var_value
      | none => .ok (.str s)
  | .arr items, vars => do
      let resolved ← resolve_value_list items vars
      .ok (.arr resolved)
  | .obj fields, vars => do
      let resolved ← resolve_value_fields fields vars
      .ok (.obj resolved)
  | v, _ => .ok v

/-- Element-wise resolution of an array. -/
def resolve_value_list : List Json → HMap Json → ParseResult (List Json)
  | [], _ => .ok []
  | x :: xs, vars => do
      let v ← resolve_variable_references x vars
      let vs ← resolve_value_list xs vars
      .ok (v :: vs)

/-- Field-wise resolution of an object. -/
def resolve_value_fields : List (String × Json) → HMap Json → ParseResult (List (String × Json))
  | [], _ => .ok []
  | (k, v) :: rest, vars => do
      let rv ← resolve_variable_references v vars
      let rs ← resolve_value_fields rest vars
      .ok ((k, rv) :: rs)

end

/-- Helper (`Compiler::extract_string_value`). -/
def extract_string_value : AstNodeEnum → Option String
  | .stringLiteral s => some s.value
  | .symbol s => some s.name
  | _ => none

/-- Helper (`Compiler::value_to_string`). -/
def value_to_string : Json → Option String
  | .str s => some s
  | _ => none

/-- Helper (`Compiler::value_to_bool`). -/
def value_to_bool : Json → Option Bool
  | .bool b => some b
  | _ => none

/-- Input extraction from a node call (`Compiler::extract_node_inputs`). -/
def extract_node_inputs (node_block : NodeBlock) : ParseResult (Option (List String)) :=
  match node_block.inputs with
  | some (.tuple tuple_inputs) =>
      .ok (some (tuple_inputs.items.map (fun s => s.name)))
  | some (.keyValue kv_inputs) =>
      .ok (some (kv_inputs.items.foldl
        (fun acc item => acc ++ item.value.items.map (fun s => s.name)) []))
  | none => .ok none

/-- Conversion of one chained attribute value (the `match &attr.value` common
to `convert_node_def` and `extract_node_attributes`). -/
def node_attr_value_to_value : NodeAttrValue → ParseResult Json
  | .symbol s => .ok (.str s.name)
  | .string string_lit => .ok (.str string_lit.value)
  | .list items => do
      let list_values ← convert_value_list items
      .ok (.arr list_values)

/-- Attribute loop of `Compiler::extract_node_attributes`. -/
def extract_node_attributes_loop (vars : HMap Json) :
    List NodeAttr → HMap Json → ParseResult (HMap Json)
  | [], with_props => .ok with_props
  | attr :: rest, with_props => do
      let value ← node_attr_value_to_value attr.value
      let resolved ← resolve_variable_references value vars
      extract_node_attributes_loop vars rest (hmInsert with_props attr.name.name resolved)

/-- Attribute extraction from a node call (`Compiler::extract_node_attributes`);
an empty accumulated map yields `none`. -/
def extract_node_attributes (node_block : NodeBlock) (vars : HMap Json) :
    ParseResult (Option (HMap Json)) :=
  match node_block.attrs with
  | some attrs => do
      let with_props ← extract_node_attributes_loop vars attrs []
      if with_props.isEmpty then .ok none else .ok (some with_props)
  | none => .ok none

/-- Attribute loop of `Compiler::convert_node_def`: `version`/`as`/`override`
are special-cased into dedicated fields, everything else folds into `with`. -/
def convert_node_attrs_loop (vars : HMap Json) :
    List NodeAttr → NodeDict → HMap Json → ParseResult (NodeDict × HMap Json)
  | [], node_dict, with_props => .ok (node_dict, with_props)
  | attr :: rest, node_dict, with_props => do
      let value ← node_attr_value_to_value attr.value
      let resolved ← resolve_variable_references value vars
      match attr.name.name with
      | "version" =>
          convert_node_attrs_loop vars rest
            { node_dict with version := value_to_string resolved } with_props
      | "as" =>
          convert_node_attrs_loop vars rest
            { node_dict with alias_ := value_to_string resolved } with_props
      | "override" =>
          convert_node_attrs_loop vars rest
            { node_dict with override_flag := value_to_bool resolved } with_props
      | _ =>
          convert_node_attrs_loop vars rest node_dict
            (hmInsert with_props attr.name.name resolved)

/-- Node conversion (`Compiler::convert_node_def`). -/
def convert_node_def (node_def : NodeDef) (vars : HMap Json) : ParseResult NodeDict := do
  let node_dict : NodeDict := {
    op_name := some node_def.value.name_or_ref.name,
    ref_graph := none, version := none,
    outputs := some (node_def.outputs.map (fun s => s.name)),
    inputs := none, depends := none, with_ := none, properties := none,
    alias_ := none, override_flag := none, for_loop := none }
  let node_dict := match node_def.value.inputs with
    | some (.tuple tuple_inputs) =>
        { node_dict with inputs := some (tuple_inputs.items.map (fun s => s.name)) }
    | some (.keyValue kv_inputs) =>
        { node_dict with inputs := some (kv_inputs.items.foldl
            (fun acc item => acc ++ item.value.items.map (fun s => s.name)) []) }
    | none => node_dict
  match node_def.value.attrs with
  | some attrs => do
      let (nd, with_props) ← convert_node_attrs_loop vars attrs node_dict []
      if with_props.isEmpty then .ok nd else .ok { nd with with_ := some with_props }
  | none => .ok node_dict

/-- Child loop of `Compiler::convert_graph_def`: attribute definitions whose
value is a node call become implicit nodes, plain attributes become
properties, explicit node definitions become nodes keyed by first output. -/
def convert_graph_children (vars : HMap Json) :
    List AstNodeEnum → HMap Json → HMap NodeDict → ParseResult (HMap Json × HMap NodeDict)
  | [], properties, nodes => .ok (properties, nodes)
  | child :: rest, properties, nodes =>
      match child with
      | .attrDef attr_def =>
          match attr_def.value with
          | .nodeBlock node_block => do
              let inputs ← extract_node_inputs node_block
              let with_ ← extract_node_attributes node_block vars
              let node_dict : NodeDict := {
                op_name := some node_block.name_or_ref.name,
                ref_graph := none, version := none,
                outputs := some [attr_def.name.name],
                inputs := inputs, depends := none, with_ := with_,
                properties := none, alias_ := none, override_flag := none,
                for_loop := none }
              convert_graph_children vars rest properties
                (hmInsert nodes attr_def.name.name node_dict)
          | _ => do
              let value ← convert_ast_to_value attr_def.value
              let resolved_value ← resolve_variable_references value vars
              convert_graph_children vars rest
                (hmInsert properties attr_def.name.name resolved_value) nodes
      | .nodeDef node_def => do
          let node_dict ← convert_node_def node_def vars
          let key := match node_def.outputs with
            | o :: _ => o.name
            | [] => "node_" ++ toString nodes.length
          convert_graph_children vars rest properties (hmInsert nodes key node_dict)
      | _ => convert_graph_children vars rest properties nodes

/-- Graph conversion (`Compiler::convert_graph_def`). -/
def convert_graph_def (graph_def : GraphDef) (vars : HMap Json) : ParseResult GraphDict := do
  let (properties, nodes) ← convert_graph_children vars graph_def.children [] []
  .ok {
    properties := if properties.isEmpty then none else some properties,
    nodes := if nodes.isEmpty then none else some nodes,
    alias_ := graph_def.alias_.map (fun s => s.name),
    version := graph_def.version.bind extract_string_value,
    template_graph := graph_def.template_graph.map (fun s => s.name),
    template_version := graph_def.template_version.bind extract_string_value }

/-- Spec item loop of `Compiler::convert_op_spec`. -/
def convert_op_spec_items (vars : HMap Json) :
    List OpSpecItem → HMap Json → ParseResult (HMap Json)
  | [], acc => .ok acc
  | item :: rest, acc => do
      let value ← convert_ast_to_value item.value
      let resolved ← resolve_variable_references value vars
      convert_op_spec_items vars rest (hmInsert acc item.name resolved)

/-- Operation specification conversion (`Compiler::convert_op_spec`). -/
def convert_op_spec (spec : OpSpec) (vars : HMap Json) : ParseResult (HMap Json) :=
  match spec.items with
  | some items => convert_op_spec_items vars items []
  | none => .ok []

/-- Attribute loop of the OpMeta arm of `Compiler::convert_op_def`. -/
def convert_op_meta_children (vars : HMap Json) :
    List AttrDef → HMap Json → ParseResult (HMap Json)
  | [], metas => .ok metas
  | attr_def :: rest, metas => do
      let value ← convert_ast_to_value attr_def.value
      let resolved ← resolve_variable_references value vars
      convert_op_meta_children vars rest (hmInsert metas attr_def.name.name resolved)

/-- Spec loop shared by the OpInput/OpOutput/OpConfig arms of
`Compiler::convert_op_def` (the three arms are textually identical apart
from the target map). -/
def convert_op_specs_children (vars : HMap Json) :
    List AstNodeEnum → HMap (HMap Json) → ParseResult (HMap (HMap Json))
  | [], acc => .ok acc
  | child :: rest, acc =>
      match child with
      | .opSpec spec => do
          let spec_dict ← convert_op_spec spec vars
          convert_op_specs_children vars rest (hmInsert acc spec.name.name spec_dict)
      | _ => convert_op_specs_children vars rest acc

/-- Child loop of `Compiler::convert_op_def`. -/
def convert_op_children (vars : HMap Json) :
    List AstNodeEnum → HMap Json → HMap (HMap Json) → HMap (HMap Json) → HMap (HMap Json) →
    ParseResult (HMap Json × HMap (HMap Json) × HMap (HMap Json) × HMap (HMap Json))
  | [], metas, inputs, outputs, configs => .ok (metas, inputs, outputs, configs)
  | child :: rest, metas, inputs, outputs, configs =>
      match child with
      | .opMeta op_meta => do
          let metas ← convert_op_meta_children vars op_meta.children metas
          convert_op_children vars rest metas inputs outputs configs
      | .opInput op_input => do
          let inputs ← convert_op_specs_children vars op_input.children inputs
          convert_op_children vars rest metas inputs outputs configs
      | .opOutput op_output => do
          let outputs ← convert_op_specs_children vars op_output.children outputs
          convert_op_children vars rest metas inputs outputs configs
      | .opConfig op_config => do
          let configs ← convert_op_specs_children vars op_config.children configs
          convert_op_children vars rest metas inputs outputs configs
      | _ => convert_op_children vars rest metas inputs outputs configs

/-- Operation conversion (`Compiler::convert_op_def`): block alias/version
seed the `metas` map under keys "as"/"version" before the child loop. -/
def convert_op_def (op_def : OpDef) (vars : HMap Json) : ParseResult OpDict := do
  let metas : HMap Json := []
  let metas := match op_def.alias_ with
    | some a => hmInsert metas "as" (.str a.name)
    | none => metas
  let metas := match op_def.version with
    | some version => hmInsert metas "version" (.str version)
    | none => metas
  let (metas, inputs, outputs, configs) ← convert_op_children vars op_def.children metas [] [] []
  .ok {
    metas := if metas.isEmpty then none else some metas,
    inputs := if inputs.isEmpty then none else some inputs,
    outputs := if outputs.isEmpty then none else some outputs,
    configs := if configs.isEmpty then none else some configs,
    graph := none }

/-- Attribute loop of `Compiler::process_var_def`: keyed inserts into the
running variable table. The alias name is used as written; only the
attribute name is trimmed (`format!("{}.{}", alias.name, attr_def.name.name.trim())`). -/
def process_var_def_children (alias_ : Option Symbol) :
    List AstNodeEnum → HMap Json → ParseResult (HMap Json)
  | [], vars => .ok vars
  | child :: rest, vars =>
      match child with
      | .attrDef attr_def => do
          let key := match alias_ with
            | some a => a.name ++ "." ++ strTrim attr_def.name.name
            | none => strTrim attr_def.name.name
          let value ← convert_ast_to_value attr_def.value
          process_var_def_children alias_ rest (hmInsert vars key value)
      | _ => process_var_def_children alias_ rest vars

/-- Variable block processing (`Compiler::process_var_def`): after the
attribute loop, an aliased block additionally records `<alias>.as = <alias>`. -/
def process_var_def (var_def : VarDef) (vars : HMap Json) : ParseResult (HMap Json) := do
  let vars ← process_var_def_children var_def.alias_ var_def.children vars
  match var_def.alias_ with
  | some a => .ok (hmInsert vars (a.name ++ ".as") (.str a.name))
  | none => .ok vars

/-- Child loop of `Compiler::compile_module` (imports and comments are
skipped). -/
def compile_children :
    List AstNodeEnum → List GraphDict → List OpDict → HMap Json →
    ParseResult (List GraphDict × List OpDict × HMap Json)
  | [], graphs, ops, vars => .ok (graphs, ops, vars)
  | child :: rest, graphs, ops, vars =>
      match child with
      | .varDef var_def => do
          let vars ← process_var_def var_def vars
          compile_children rest graphs ops vars
      | .graphDef graph_def => do
          let graph_dict ← convert_graph_def graph_def vars
          compile_children rest (graphs ++ [graph_dict]) ops vars
      | .opDef op_def => do
          let op_dict ← convert_op_def op_def vars
          compile_children rest graphs (ops ++ [op_dict]) vars
      | _ => compile_children rest graphs ops vars

/-- Module compilation (`Compiler::compile_module`): empty collections are
omitted from the result; `gos_version` is fixed to "0.5.2". -/
def compile_module (module : Module) : ParseResult CompileResult := do
  let (graphs, ops, vars) ← compile_children module.children [] [] []
  .ok {
    graphs := if graphs.isEmpty then none else some graphs,
    ops := if ops.isEmpty then none else some ops,
    vars := if vars.isEmpty then none else some vars,
    gos_version := "0.5.2",
    op_names := none, subgraphs := none }

/-- Compilation entry point (`Compiler::compile` / `compile_ast`): any root
other than a Module is a general error. -/
def compile (ast : AstNodeEnum) : ParseResult CompileResult :=
  match ast with
  | .module module => compile_module module
  | _ => .error (.general "Expected Module as root AST node")

/-! Serde serialization of the IR structures (the wire contract consumed by
the decompiler): fields in declaration order, `None` fields skipped
(`skip_serializing_if = "Option::is_none"`), with `rename = "as"` on the
alias fields. -/

/-- One optional serialized field. -/
def jfield (name : String) (v : Option Json) : List (String × Json) :=
  match v with
  | some j => [(name, j)]
  | none => []

/-- Serialization of `NodeDict`. -/
def NodeDict.toJson (nd : NodeDict) : Json :=
  .obj (jfield "op_name" (nd.op_name.map .str)
     ++ jfield "ref_graph" (nd.ref_graph.map .str)
     ++ jfield "version" (nd.version.map .str)
     ++ jfield "outputs" (nd.outputs.map (fun l => .arr (l.map .str)))
     ++ jfield "inputs" (nd.inputs.map (fun l => .arr (l.map .str)))
     ++ jfield "depends" (nd.depends.map (fun l => .arr (l.map .str)))
     ++ jfield "with" (nd.with_.map .obj)
     ++ jfield "properties" (nd.properties.map .obj)
     ++ jfield "as" (nd.alias_.map .str)
     ++ jfield "override_flag" (nd.override_flag.map .bool)
     ++ jfield "for_loop" (nd.for_loop.map .obj))

/-- Serialization of `GraphDict`: the `properties` map is serialized under
the field name "properties", the alias under "as". -/
def GraphDict.toJson (g : GraphDict) : Json :=
  .obj (jfield "properties" (g.properties.map .obj)
     ++ jfield "nodes" (g.nodes.map (fun m => .obj (m.map (fun p => (p.1, p.2.toJson)))))
     ++ jfield "as" (g.alias_.map .str)
     ++ jfield "version" (g.version.map .str)
     ++ jfield "template_graph" (g.template_graph.map .str)
     ++ jfield "template_version" (g.template_version.map .str))


/-! Decompiler from `src/decompiler.rs`. The thread-local `OPTIONS` cell is
constant during one invocation and is modelled by the explicit `opts`
argument; `&mut String` buffers are threaded explicitly. -/

/-- Decompilation options (`DecompileOptions`). -/
structure DecompileOptions where
  indent : Nat
  max_col : Nat
  unescape : Bool
  keep_order : Bool
deriving DecidableEq, Repr

/-- Default decompilation options (`Default for DecompileOptions`). -/
def default_decompile_options : DecompileOptions :=
  { indent := 4, max_col := 100, unescape := false, keep_order := false }

/-- Decompilation result (`DecompileResult`). -/
inductive DecompileResult where
  | text (s : String)
  | structured (grl : String) (std : Json) (source_json_kind : String)

mutual

/-- Recursive string unescaping (`unescape_dfs`), replacement order as in
the source. -/
def unescape_dfs : Json → Json
  | .obj map => .obj (unescape_fields map)
  | .arr arr => .arr (unescape_list arr)
  | .str s =>
      .str ((((((s.replace "\\n" "\n").replace "\\t" "\t").replace "\\r" "\r").replace
        "\\\\" "\\").replace "\\\"" "\"").replace "\\'" "'")
  | v => v

/-- Element-wise unescaping of an array. -/
def unescape_list : List Json → List Json
  | [] => []
  | x :: xs => unescape_dfs x :: unescape_list xs

/-- Field-wise unescaping of an object. -/
def unescape_fields : List (String × Json) → List (String × Json)
  | [] => []
  | (k, v) :: xs => (k, unescape_dfs v) :: unescape_fields xs

end

/-- Start-character class of the identifier pattern `VALID_IDENTIFIER`
(`^[a-zA-Z_\-$%@][a-zA-Z_\-$%@\.0-9]*$`). -/
def is_id_start (c : Char) : Bool :=
  ('a' ≤ c && c ≤ 'z') || ('A' ≤ c && c ≤ 'Z') ||
  c == '_' || c == '-' || c == '$' || c == '%' || c == '@'

/-- Continuation-character class of `VALID_IDENTIFIER`. -/
def is_id_continue (c : Char) : Bool :=
  is_id_start c || c == '.' || ('0' ≤ c && c ≤ '9')

/-- Whole-string match of the anchored regex `VALID_IDENTIFIER`. -/
def matches_valid_identifier (s : String) : Bool :=
  match s.data with
  | [] => false
  | c :: cs => is_id_start c && cs.all is_id_continue

/-- Whole-string match of the anchored regex `VALID_VERSION`
(`^[0-9]+\.[0-9]+\.[0-9]+$`). -/
def matches_valid_version (s : String) : Bool :=
  match splitOnChar '.' s.data with
  | [a, b, c] =>
      !a.isEmpty && a.all Char.isDigit &&
      !b.isEmpty && b.all Char.isDigit &&
      !c.isEmpty && c.all Char.isDigit
  | _ => false

/-- Identifier validation (`check_id`). -/
def check_id (value : String) : Except String String :=
  if matches_valid_identifier value then .ok value
  else .error ("Invalid identifier: " ++ value)

/-- Version validation (`check_version`): the non-matching branch also
returns `Ok` ("For now, allow any version format" in the source). -/
def check_version (value : String) : Except String String :=
  if matches_valid_version value then .ok value
  else .ok value

/-- Indentation helper (`indent`): a newline plus `spaces` spaces when
`spaces > 0`, nothing otherwise. -/
def indent (buffer : String) (spaces : Nat) : String :=
  if spaces > 0 then buffer ++ "\n" ++ spacesStr spaces else buffer

/-- Scalar rendering of the parameter formatter
(`ParamFormatter::format_value`). -/
def format_value : Json → String
  | .str s => "'" ++ s.replace "'" "\\'" ++ "'"
  | .num n => n.renderString
  | .bool b => if b then "true" else "false"
  | .null => "null"
  | v => v.compactString

mutual

/-- Nested-value dispatch of the parameter formatter
(`ParamFormatter::dfs`). -/
def pf_dfs (opts : DecompileOptions) :
    Json → String → Nat → Nat → Except String (String × Nat)
  | .obj obj, buffer, col, deep => pf_dict opts obj buffer col (deep + 1)
  | .arr arr, buffer, col, deep => pf_list opts arr buffer col (deep + 1)
  | input, buffer, col, _ =>
      let formatted := format_value input
      .ok (buffer ++ formatted, col + strLen formatted)

/-- Nested-object layout (`ParamFormatter::dict`). `col - 1` is the source's
`usize` subtraction; the overflow branch is reached only with `col ≥ 1` in
every call of the program. -/
def pf_dict (opts : DecompileOptions) (inputs : List (String × Json))
    (buffer : String) (col : Nat) (deep : Nat) : Except String (String × Nat) :=
  let strings := inputs.map (fun p => p.1 ++ ": " ++ format_value p.2)
  let candidate := String.intercalate "," strings
  let buffer := buffer.push '{'
  let current_col := col + 1
  if current_col + strLen candidate > opts.max_col && opts.indent > 0 then
    match pf_dict_loop opts inputs buffer col deep current_col with
    | .error e => .error e
    | .ok (buffer, current_col) =>
        let buffer := indent buffer (col - 1)
        .ok (buffer.push '}', current_col + 1)
  else
    let buffer := buffer ++ candidate
    .ok (buffer.push '}', col + strLen candidate + 1)

/-- Per-entry loop of the overflowing branch of `ParamFormatter::dict`;
`strings[i]` is recomputed per entry, element-wise equal to the
precomputed vector of the source. -/
def pf_dict_loop (opts : DecompileOptions) :
    List (String × Json) → String → Nat → Nat → Nat → Except String (String × Nat)
  | [], buffer, _, _, current_col => .ok (buffer, current_col)
  | (k, v) :: rest, buffer, col, deep, _current_col =>
      let s := k ++ ": " ++ format_value v
      let current_col := col + opts.indent
      let buffer := indent buffer current_col
      let current_col := current_col + strLen s + 1
      if current_col > opts.max_col then
        let key := k ++ ": "
        let buffer := buffer ++ key
        match pf_dfs opts v buffer (col + opts.indent + strLen key) (deep + 1) with
        | .error e => .error e
        | .ok (buffer, current_col) =>
            let buffer := if rest.isEmpty then buffer else buffer.push ','
            pf_dict_loop opts rest buffer col deep current_col
      else
        let buffer := buffer ++ s
        let buffer := if rest.isEmpty then buffer else buffer.push ','
        pf_dict_loop opts rest buffer col deep current_col

/-- Nested-array layout (`ParamFormatter::list`). -/
def pf_list (opts : DecompileOptions) (inputs : List Json)
    (buffer : String) (col : Nat) (deep : Nat) : Except String (String × Nat) :=
  let strings := inputs.map format_value
  let candidate := String.intercalate "," strings
  let buffer := buffer.push '['
  let current_col := col + 1
  if current_col + strLen candidate > opts.max_col && opts.indent > 0 then
    match pf_list_loop opts inputs buffer col deep current_col with
    | .error e => .error e
    | .ok (buffer, current_col) => .ok (buffer.push ']', current_col + 1)
  else
    let buffer := buffer ++ candidate
    .ok (buffer.push ']', col + strLen candidate + 1)

/-- Per-item loop of the overflowing branch of `ParamFormatter::list`. -/
def pf_list_loop (opts : DecompileOptions) :
    List Json → String → Nat → Nat → Nat → Except String (String × Nat)
  | [], buffer, _, _, current_col => .ok (buffer, current_col)
  | item :: rest, buffer, col, deep, current_col =>
      let s := format_value item
      let current_col := current_col + strLen s + 1
      if current_col > opts.max_col then
        let buffer := indent buffer col
        match pf_dfs opts item buffer col (deep + 1) with
        | .error e => .error e
        | .ok (buffer, current_col) =>
            let buffer := if rest.isEmpty then buffer else buffer.push ','
            pf_list_loop opts rest buffer col deep current_col
      else
        let buffer := buffer ++ s
        let buffer := if rest.isEmpty then buffer else buffer.push ','
        pf_list_loop opts rest buffer col deep current_col

end

/-- Per-entry loop of the overflowing branch of `ParamFormatter::format`;
after every non-last item the delimiter is pushed and a fresh line at
column `col` is started. -/
def pf_format_loop (opts : DecompileOptions) (delimiter : Char) :
    List (String × Json) → String → Nat → Nat → Except String (String × Nat)
  | [], buffer, _, current_col => .ok (buffer, current_col)
  | (k, v) :: rest, buffer, col, current_col =>
      let s := k ++ "=" ++ format_value v
      let current_col := current_col + strLen s + 1
      if current_col > opts.max_col then
        let key := k ++ "="
        let buffer := buffer ++ key
        match pf_dfs opts v buffer (col + strLen key) 0 with
        | .error e => .error e
        | .ok (buffer, current_col) =>
            let buffer := if rest.isEmpty then buffer else indent (buffer.push delimiter) col
            pf_format_loop opts delimiter rest buffer col current_col
      else
        let buffer := buffer ++ s
        let buffer := if rest.isEmpty then buffer else indent (buffer.push delimiter) col
        pf_format_loop opts delimiter rest buffer col current_col

/-- Key=value list layout (`ParamFormatter::format`): single-line join while
it fits the column budget, one item per line once it overflows. Non-objects
leave the buffer untouched. -/
def pf_format (opts : DecompileOptions) (inputs : Json) (delimiter : Char)
    (buffer : String) (col : Nat) : Except String (String × Nat) :=
  match inputs.as_object with
  | some obj =>
      let strings := obj.map (fun p => p.1 ++ "=" ++ format_value p.2)
      let candidate := String.intercalate (String.singleton delimiter) strings
      if col + strLen candidate > opts.max_col && opts.indent > 0 then
        pf_format_loop opts delimiter obj buffer col col
      else
        .ok (buffer ++ candidate, col + strLen candidate)
  | none => .ok (buffer, col)

/-- Identity passthrough of one input item
(`NodeDecompiler::str_input`, "simple implementation" in the source). -/
def nd_str_input (data : String) : String := data

/-- Per-item loop of the overflowing branch of
`NodeDecompiler::indent_list`: a fresh line is started only when the
running column exceeds the budget. -/
def nd_indent_list_loop (opts : DecompileOptions) (delimiter : String) :
    List String → String → Nat → String × Nat
  | [], buffer, current_col => (buffer, current_col)
  | item :: rest, buffer, current_col =>
      let current_col := current_col + opts.indent * 2 + strLen item + 1
      let (buffer, current_col) :=
        if current_col > opts.max_col then
          (indent buffer (opts.indent * 2), opts.indent * 2)
        else (buffer, current_col)
      let buffer := buffer ++ item
      let buffer := if rest.isEmpty then buffer else buffer ++ delimiter
      nd_indent_list_loop opts delimiter rest buffer current_col

/-- Output-list layout (`NodeDecompiler::indent_list`). -/
def nd_indent_list (opts : DecompileOptions) (inputs : List String)
    (col : Nat) (delimiter : String) (buffer : String) : String × Nat :=
  let candidate := String.intercalate delimiter inputs
  if col + strLen candidate > opts.max_col && opts.indent > 0 then
    nd_indent_list_loop opts delimiter inputs buffer col
  else
    (buffer ++ candidate, col + strLen candidate)

/-- Per-item loop of the overflowing branch of
`NodeDecompiler::indent_inputs`. -/
def nd_indent_inputs_loop (opts : DecompileOptions) (delimiter : String) :
    List String → String → Nat → String × Nat
  | [], buffer, current_col => (buffer, current_col)
  | item :: rest, buffer, current_col =>
      let current_col := current_col + opts.indent * 2 + strLen item + 1
      let (buffer, current_col) :=
        if current_col > opts.max_col then
          (indent buffer (opts.indent * 2), opts.indent * 2)
        else (buffer, current_col)
      let buffer := buffer ++ nd_str_input item
      let buffer := if rest.isEmpty then buffer else buffer ++ delimiter
      nd_indent_inputs_loop opts delimiter rest buffer current_col

/-- Input-list layout (`NodeDecompiler::indent_inputs`). -/
def nd_indent_inputs (opts : DecompileOptions) (inputs : List String)
    (col : Nat) (delimiter : String) (buffer : String) : String × Nat :=
  let candidate := String.intercalate delimiter (inputs.map nd_str_input)
  if col + strLen candidate > opts.max_col && opts.indent > 0 then
    nd_indent_inputs_loop opts delimiter inputs buffer col
  else
    (buffer ++ candidate, col + strLen candidate)

/-- Single-string layout (`NodeDecompiler::indent_str`). -/
def nd_indent_str (opts : DecompileOptions) (buffer : String) (input : String)
    (col : Nat) : String × Nat :=
  if col + strLen input > opts.max_col && opts.indent > 0 then
    let indent_ := opts.indent * 2
    (indent buffer indent_ ++ input, indent_ + strLen input)
  else (buffer ++ input, col + strLen input)

/-- Rendering of one keyed input value (`input_str`). -/
def input_str (inputs : Json) : String :=
  match inputs with
  | .arr arr =>
      match arr with
      | [x] => x.compactString
      | _ => "(" ++ String.intercalate "," (arr.map Json.compactString) ++ ")"
  | _ => inputs.compactString

/-- Attribute-chain suffix loop over the fixed `param_map` of
`NodeDecompiler::node_block_from_value` (`property`/`with`/`log`/
`metrics`/`funnel`). -/
def nd_param_map_loop (opts : DecompileOptions) (node : Json) :
    List (String × String) → String → Except String String
  | [], buffer => .ok buffer
  | (key, prefx) :: rest, buffer =>
      match node.get key with
      | some value =>
          let indent_ := opts.indent * 2
          let buffer := indent buffer indent_
          let buffer := buffer ++ "." ++ prefx ++ "("
          match pf_format opts value ',' buffer (indent_ + strLen prefx + 1) with
          | .error e => .error e
          | .ok (buffer, _) => nd_param_map_loop opts node rest (buffer.push ')')
      | none => nd_param_map_loop opts node rest buffer

/-- Literal-attrs suffix fold of `NodeDecompiler::node_block_from_value`. -/
def nd_attrs_fold (opts : DecompileOptions) (attrs : List Json) (buffer : String) : String :=
  attrs.foldl (fun buffer attr =>
    match attr.as_object with
    | some attr_obj =>
        match hmGet attr_obj "key", hmGet attr_obj "value" with
        | some key, some value =>
            match key.as_str, value.as_str with
            | some key_str, some value_str =>
                (nd_indent_str opts buffer ("." ++ key_str ++ "(" ++ value_str ++ ")") 0).1
            | _, _ => buffer
        | _, _ => buffer
    | none => buffer) buffer

/-- Generic node-call rendering
(`NodeDecompiler::node_block_from_value`). -/
def node_block_from_value (opts : DecompileOptions) (node : Json)
    (buffer : String) (has_as : Bool) (node_as : String) : Except String String := do
  let (buffer, name) ←
    match (node.get "ref_graph").bind Json.as_str with
    | some ref_graph => pure (buffer ++ "ref(", ref_graph)
    | none =>
        match (node.get "op_name").bind Json.as_str with
        | some op_name => pure (buffer, op_name)
        | none => throw ("Node " ++ node_as ++ " has no op_name or ref_graph")
  let checked_name ← check_id name
  let buffer := buffer ++ checked_name ++ "("
  let buffer :=
    match node.get "input" with
    | some inputs =>
        match inputs.as_array with
        | some inputs_array =>
            let input_strings := inputs_array.filterMap Json.as_str
            (nd_indent_inputs opts input_strings (opts.indent * 2) "," buffer).1
        | none =>
            match inputs.as_object with
            | some inputs_obj =>
                let input_strings := inputs_obj.map (fun (p : String × Json) => p.1 ++ "=" ++ input_str p.2)
                (nd_indent_inputs opts input_strings (opts.indent * 2) "," buffer).1
            | none => buffer
    | none => buffer
  let buffer := buffer.push ')'
  let buffer := if (node.get "ref_graph").isSome then buffer.push ')' else buffer
  let buffer :=
    match (node.get "attrs").bind Json.as_array with
    | some attrs => nd_attrs_fold opts attrs buffer
    | none => buffer
  let buffer :=
    match (node.get "version").bind Json.as_str with
    | some version => (nd_indent_str opts buffer (".version('" ++ version ++ "')") 0).1
    | none => buffer
  let buffer ←
    if has_as then do
      let checked_as ← check_id node_as
      pure (nd_indent_str opts buffer (".as(" ++ checked_as ++ ")") 0).1
    else pure buffer
  let buffer := if (node.get "start").isSome then (nd_indent_str opts buffer ".as(start)" 0).1 else buffer
  let buffer := if (node.get "end").isSome then (nd_indent_str opts buffer ".as(end)" 0).1 else buffer
  let buffer :=
    match (node.get "depend").bind Json.as_array with
    | some depends =>
        let depends_str := String.intercalate "," (depends.filterMap Json.as_str)
        (nd_indent_str opts buffer (".depend(" ++ depends_str ++ ")") 0).1
    | none => buffer
  let buffer :=
    match node.get "override" with
    | some override_val =>
        let override_str :=
          match override_val with
          | .bool b => if b then "true" else "false"
          | .null => ""
          | v => v.compactString
        (nd_indent_str opts buffer (".override(" ++ override_str ++ ")") 0).1
    | none => buffer
  nd_param_map_loop opts node
    [("property", "property"), ("with", "with"), ("log", "log"),
     ("metrics", "metrics"), ("funnel", "funnel")] buffer

/-- Conditional-node rendering (`NodeDecompiler::condition_node`). -/
def condition_node (opts : DecompileOptions) (node_as : String) (node : Json)
    (buffer : String) : Except String String := do
  let condition ←
    match (node.get "condition").bind Json.as_str with
    | some c => pure c
    | none => throw ("Condition node " ++ node_as ++ " must have string condition")
  let buffer := buffer ++ condition ++ " ? "
  let true_branch ←
    match node.get "true_branch" with
    | some t => pure t
    | none => throw ("Condition node " ++ node_as ++ " must have true branch")
  let buffer ← node_block_from_value opts true_branch buffer false node_as
  let buffer := buffer ++ " : "
  let false_branch ←
    match node.get "false_branch" with
    | some f => pure f
    | none => throw ("Condition node " ++ node_as ++ " must have false branch")
  let buffer ← node_block_from_value opts false_branch buffer false node_as
  .ok (buffer.push ';')

/-- For-loop node rendering (`NodeDecompiler::for_loop`); the inner call is
rendered with `has_as` forced true, as in the source. -/
def nd_for_loop (opts : DecompileOptions) (node_as : String) (node : Json)
    (for_loop : List (String × Json)) (buffer : String) : Except String String := do
  let buffer := buffer.push '['
  let buffer ← node_block_from_value opts node buffer true node_as
  let for_inputs := ((hmGet for_loop "inputs").bind Json.as_str).getD ""
  let for_outputs_str :=
    match hmGet for_loop "outputs" with
    | some outputs =>
        match outputs.as_array with
        | some arr => String.intercalate ", " (arr.filterMap Json.as_str)
        | none =>
            match outputs.as_str with
            | some s => s
            | none => ""
    | none => ""
  let indent_ := opts.indent * 2
  let buffer := indent buffer indent_
  let buffer := buffer ++ "for " ++ for_outputs_str ++ " in " ++ for_inputs
  let buffer :=
    match (hmGet for_loop "condition").bind Json.as_str with
    | some for_condition => (indent buffer (opts.indent * 2)) ++ "if " ++ for_condition
    | none => buffer
  .ok (buffer ++ "];")

/-- Tail of `NodeDecompiler::decompile` after the for-loop check: the
condition-node special case, else a generic node call plus `;`. -/
def node_rest (opts : DecompileOptions) (node_as : String) (node : Json)
    (buffer : String) (has_as : Bool) : Except String String :=
  match (node.get "op_name").bind Json.as_str with
  | some op_name =>
      if op_name = "builtin.conditions.str" then
        condition_node opts node_as node buffer
      else do
        let buffer ← node_block_from_value opts node buffer has_as node_as
        .ok (buffer.push ';')
  | none => do
      let buffer ← node_block_from_value opts node buffer has_as node_as
      .ok (buffer.push ';')

/-- One-node rendering (`NodeDecompiler::decompile`). -/
def node_decompile (opts : DecompileOptions) (node_as : String) (node : Json)
    (buffer : String) : Except String String := do
  let outputs ←
    match (node.get "output").bind Json.as_array with
    | some o => pure o
    | none => throw ("Node " ++ node_as ++ " has no output")
  let buffer := indent buffer opts.indent
  let output_key := String.intercalate "," (outputs.filterMap Json.as_str)
  let has_as := output_key != node_as
  let buffer :=
    if has_as then
      let simplified_outputs := (outputs.filterMap Json.as_str).map
        (fun s => match (splitOnChar '.' s.data).getLast? with
          | some g => String.mk g
          | none => s)
      (nd_indent_list opts simplified_outputs opts.indent "," buffer).1 ++ " = "
    else
      buffer ++ output_key ++ " = "
  match (node.get "for_loop").bind Json.as_object with
  | some for_loop =>
      if !for_loop.isEmpty && (hmGet for_loop "inputs").isSome
          && (hmGet for_loop "outputs").isSome then
        nd_for_loop opts node_as node for_loop buffer
      else
        node_rest opts node_as node buffer has_as
  | none => node_rest opts node_as node buffer has_as

/-- Node-map loop shared by `decompile_graph` and `decompile_std`. -/
def decompile_nodes (opts : DecompileOptions) :
    List (String × Json) → String → Except String String
  | [], buffer => .ok buffer
  | (node_as, node) :: rest, buffer => do
      let buffer ← node_decompile opts node_as node buffer
      decompile_nodes opts rest buffer

/-- Graph rendering (`decompile_graph`): the properties line is rendered
only from the field named "property". -/
def decompile_graph (opts : DecompileOptions) (buffer : String) (graph : Json) :
    Except String String := do
  if !graph.is_object then throw "Graph must be a JSON object"
  else do
    let buffer ←
      match (graph.get "template_graph").bind Json.as_str with
      | some tpl => do
          let checked_tpl ← check_id tpl
          let buffer := buffer ++ "graph : " ++ checked_tpl
          let buffer ←
            match (graph.get "template_version").bind Json.as_str with
            | some tpl_version => do
                let checked_version ← check_version tpl_version
                pure (buffer ++ ".version('" ++ checked_version ++ "')")
            | none => pure buffer
          pure (buffer ++ " \x7b")
      | none => pure (buffer ++ "graph \x7b")
    let buffer ←
      match graph.get "property" with
      | some props => do
          let buffer := indent buffer opts.indent
          let (buffer, _) ← pf_format opts props ',' buffer opts.indent
          pure (buffer.push ';')
      | none => pure buffer
    let buffer ←
      match (graph.get "nodes").bind Json.as_object with
      | some nodes_obj => decompile_nodes opts nodes_obj buffer
      | none => pure buffer
    let buffer := if opts.indent > 0 then buffer.push '\n' else buffer
    let buffer := buffer.push '}'
    let buffer ←
      match (graph.get "as").bind Json.as_str with
      | some graph_as => do
          let checked_as ← check_id graph_as
          let buffer := buffer ++ " as " ++ checked_as
          match (graph.get "version").bind Json.as_str with
          | some graph_version => do
              let checked_version ← check_version graph_version
              pure (buffer ++ ".version('" ++ checked_version ++ "')")
          | none => pure buffer
      | none => pure buffer
    .ok (buffer.push ';')

/-- Length/range rendering (`op_length_range_format`). -/
def op_length_range_format (inputs : Json) : String :=
  match (inputs.get "eq").bind Json.as_i64 with
  | some eq => toString eq
  | none =>
      let lower :=
        match (inputs.get "ge").bind Json.as_i64 with
        | some ge => "[" ++ toString ge
        | none =>
            match (inputs.get "gt").bind Json.as_i64 with
            | some gt => "(" ++ toString gt
            | none => "["
      let upper :=
        match (inputs.get "le").bind Json.as_i64 with
        | some le => toString le ++ "]"
        | none =>
            match (inputs.get "lt").bind Json.as_i64 with
            | some lt => toString lt ++ ")"
            | none => "]"
      lower ++ "," ++ upper

/-- Rendering of one spec value keyed by its field name
(the inner match of `op_spec_format`). -/
def op_spec_value (k : String) (v : Json) : String :=
  match k with
  | "dtype" => (v.as_str).getD v.compactString
  | "length" => op_length_range_format v
  | "range" => op_length_range_format v
  | "choice" =>
      match v.as_array with
      | some choices =>
          "(" ++ String.intercalate ","
            (choices.map (fun c => "'" ++ ((c.as_str).getD c.compactString) ++ "'")) ++ ")"
      | none => "'" ++ ((v.as_str).getD v.compactString) ++ "'"
  | _ => "'" ++ ((v.as_str).getD v.compactString) ++ "'"

/-- Rendering of one spec entry body (the inner `j` loop of
`op_spec_format`: `k=value` joined by commas). -/
def op_spec_entry (spec : Json) : String :=
  match spec.as_object with
  | some spec_obj =>
      String.intercalate "," (spec_obj.map (fun p => p.1 ++ "=" ++ op_spec_value p.1 p.2))
  | none => ""

/-- Outer entry loop of `op_spec_format`. -/
def op_spec_format_loop (opts : DecompileOptions) (col : Nat) :
    List (String × Json) → String → String
  | [], buffer => buffer
  | (name, spec) :: rest, buffer =>
      let buffer := buffer ++ name ++ ":(" ++ op_spec_entry spec ++ ");"
      let buffer := if !rest.isEmpty && opts.indent > 0 then indent buffer col else buffer
      op_spec_format_loop opts col rest buffer

/-- Operation specification rendering (`op_spec_format`). -/
def op_spec_format (opts : DecompileOptions) (inputs : List (String × Json))
    (buffer : String) (col : Nat) : Except String String :=
  .ok (op_spec_format_loop opts col inputs buffer)

/-- Operation rendering (`decompile_op`). -/
def decompile_op (opts : DecompileOptions) (buffer : String) (op : Json) :
    Except String String := do
  if !op.is_object then throw "Operation must be a JSON object"
  else do
    let metas := ((op.get "metas").bind Json.as_object).getD []
    let r1 := hmRemove metas "as"
    let op_as := r1.1.bind Json.as_str
    let r2 := hmRemove r1.2 "version"
    let op_version := r2.1.bind Json.as_str
    let copy_meta := r2.2
    let buffer := buffer ++ "op \x7b"
    let buffer ←
      if !copy_meta.isEmpty then do
        let buffer := indent buffer opts.indent
        let buffer := buffer ++ "meta \x7b"
        let (buffer, _) ← pf_format opts (.obj copy_meta) ',' buffer (opts.indent * 2)
        let buffer := if opts.indent > 0 then buffer ++ "\n" ++ spacesStr opts.indent else buffer
        pure (buffer ++ "\x7d;")
      else pure buffer
    let buffer ←
      match (op.get "inputs").bind Json.as_object with
      | some inputs => do
          let buffer := indent buffer opts.indent
          let buffer := buffer ++ "input \x7b"
          let buffer ← op_spec_format opts inputs buffer (opts.indent * 2)
          let buffer := if opts.indent > 0 then buffer ++ "\n" ++ spacesStr opts.indent else buffer
          pure (buffer ++ "\x7d;")
      | none => pure buffer
    let buffer ←
      match (op.get "outputs").bind Json.as_object with
      | some outputs => do
          let buffer := indent buffer opts.indent
          let buffer := buffer ++ "output \x7b"
          let buffer ← op_spec_format opts outputs buffer (opts.indent * 2)
          let buffer := if opts.indent > 0 then buffer ++ "\n" ++ spacesStr opts.indent else buffer
          pure (buffer ++ "\x7d;")
      | none => pure buffer
    let buffer ←
      match (op.get "configs").bind Json.as_object with
      | some configs => do
          let buffer := indent buffer opts.indent
          let buffer := buffer ++ "config \x7b"
          let buffer ← op_spec_format opts configs buffer (opts.indent * 2)
          let buffer := if opts.indent > 0 then buffer ++ "\n" ++ spacesStr opts.indent else buffer
          pure (buffer ++ "\x7d;")
      | none => pure buffer
    let buffer ←
      match op.get "graph" with
      | some graph => decompile_graph opts buffer graph
      | none => pure buffer
    let buffer := if opts.indent > 0 then buffer.push '\n' else buffer
    let buffer := buffer.push '}'
    let buffer ←
      match op_as with
      | some as_name => do
          let checked_as ← check_id as_name
          let buffer := buffer ++ " as " ++ checked_as
          match op_version with
          | some version => do
              let checked_version ← check_version version
              pure (buffer ++ ".version('" ++ checked_version ++ "')")
          | none => pure buffer
      | none => pure buffer
    .ok (buffer.push ';')

/-- Blank-line separated graph loop of `decompile_std`. -/
def decompile_graphs_loop (opts : DecompileOptions) :
    List Json → String → Except String String
  | [], buffer => .ok buffer
  | graph :: rest, buffer => do
      let buffer ← decompile_graph opts buffer graph
      let buffer := if rest.isEmpty then buffer else buffer ++ "\n\n"
      decompile_graphs_loop opts rest buffer

/-- Blank-line separated op loop of `decompile_std`. -/
def decompile_ops_loop (opts : DecompileOptions) :
    List Json → String → Except String String
  | [], buffer => .ok buffer
  | op :: rest, buffer => do
      let buffer ← decompile_op opts buffer op
      let buffer := if rest.isEmpty then buffer else buffer ++ "\n\n"
      decompile_ops_loop opts rest buffer

/-- Whole-document rendering (`decompile_std`): graphs, then ops, then a
bare top-level node map. -/
def decompile_std (opts : DecompileOptions) (std_data : Json) : Except String String := do
  if !std_data.is_object then throw "Decompile input must be a JSON object"
  else do
    let buffer := ""
    let buffer ←
      match std_data.get "graphs" with
      | some graphs =>
          match graphs.as_array with
          | some graphs_array => decompile_graphs_loop opts graphs_array buffer
          | none => throw "Graphs must be an array"
      | none => pure buffer
    let buffer ←
      match std_data.get "ops" with
      | some ops =>
          match ops.as_array with
          | some ops_array => decompile_ops_loop opts ops_array buffer
          | none => pure buffer
      | none => pure buffer
    let buffer ←
      match (std_data.get "nodes").bind Json.as_object with
      | some nodes_obj => decompile_nodes opts nodes_obj buffer
      | none => pure buffer
    .ok buffer

/-- In-memory decompilation entry point (`decompile_from_data`): records the
options, optionally unescapes, then renders. -/
def decompile_from_data (content : Json) (options : Option DecompileOptions) :
    Except String DecompileResult := do
  let opts := options.getD default_decompile_options
  let content := if opts.unescape then unescape_dfs content else content
  let grl_text ← decompile_std opts content
  .ok (.text grl_text)


/-! Shared helper lemmas and totality of the converters. -/

/-- Reference position for concrete examples. -/
def pos0 : Position := ⟨1, 1, 1, 1⟩

/-- Binding an `ok` value in `Except` applies the continuation. -/
theorem except_ok_bind {ε α β : Type} (a : α) (f : α → Except ε β) :
    (Except.ok a >>= f : Except ε β) = f a := rfl

/-- Binding an error in `Except` propagates the error. -/
theorem except_error_bind {ε α β : Type} (e : ε) (f : α → Except ε β) :
    (Except.error e >>= f : Except ε β) = .error e := rfl

mutual

/-- The AST-to-IR converter never fails. -/
theorem convert_ast_to_value_ok (n : AstNodeEnum) : ∃ v, convert_ast_to_value n = .ok v := by
  cases n with
  | stringLiteral s => exact ⟨_, rfl⟩
  | multiLineStringLiteral s => exact ⟨_, rfl⟩
  | numberLiteral n => exact ⟨_, rfl⟩
  | floatLiteral f =>
      cases hf : f.value.isFinite with
      | true => exact ⟨.num (.float f.value), by simp [convert_ast_to_value, hf]⟩
      | false => exact ⟨.null, by simp [convert_ast_to_value, hf]⟩
  | boolLiteral b => exact ⟨_, rfl⟩
  | nullLiteral n => exact ⟨_, rfl⟩
  | symbol s => exact ⟨_, rfl⟩
  | listStatement l =>
      cases l with
      | mk p items =>
          obtain ⟨vs, hvs⟩ := convert_value_list_ok items
          exact ⟨.arr vs, by simp [convert_ast_to_value, hvs, except_ok_bind]⟩
  | dictStatement d =>
      cases d with
      | mk p items =>
          obtain ⟨m, hm⟩ := convert_dict_items_ok items []
          exact ⟨.obj m, by simp [convert_ast_to_value, hm, except_ok_bind]⟩
  | module m => exact ⟨_, rfl⟩
  | comment c => exact ⟨_, rfl⟩
  | dateTimeLiteral d => exact ⟨_, rfl⟩
  | dateLiteral d => exact ⟨_, rfl⟩
  | dictItem d => exact ⟨_, rfl⟩
  | tupleStatement t => exact ⟨_, rfl⟩
  | setStatement s => exact ⟨_, rfl⟩
  | import_ i => exact ⟨_, rfl⟩
  | importItem i => exact ⟨_, rfl⟩
  | attrDef a => exact ⟨_, rfl⟩
  | refDef r => exact ⟨_, rfl⟩
  | varDef v => exact ⟨_, rfl⟩
  | graphDef g => exact ⟨_, rfl⟩
  | nodeDef n => exact ⟨_, rfl⟩
  | nodeBlock n => exact ⟨_, rfl⟩
  | nodeInputTuple n => exact ⟨_, rfl⟩
  | nodeInputKeyDef n => exact ⟨_, rfl⟩
  | nodeInputKeyItem n => exact ⟨_, rfl⟩
  | nodeInputValues n => exact ⟨_, rfl⟩
  | nodeAttr n => exact ⟨_, rfl⟩
  | conditionDef c => exact ⟨_, rfl⟩
  | conditionBlock c => exact ⟨_, rfl⟩
  | conditionStatement c => exact ⟨_, rfl⟩
  | forLoopBlock f => exact ⟨_, rfl⟩
  | opDef o => exact ⟨_, rfl⟩
  | opMeta o => exact ⟨_, rfl⟩
  | opInput o => exact ⟨_, rfl⟩
  | opOutput o => exact ⟨_, rfl⟩
  | opConfig o => exact ⟨_, rfl⟩
  | opSpec o => exact ⟨_, rfl⟩
  | opSpecItem o => exact ⟨_, rfl⟩
  | closedInterval c => exact ⟨_, rfl⟩
  | mixInterval m => exact ⟨_, rfl⟩

/-- List conversion never fails. -/
theorem convert_value_list_ok (xs : List AstNodeEnum) : ∃ vs, convert_value_list xs = .ok vs := by
  cases xs with
  | nil => exact ⟨[], rfl⟩
  | cons x xs =>
      obtain ⟨v, hv⟩ := convert_ast_to_value_ok x
      obtain ⟨vs, hvs⟩ := convert_value_list_ok xs
      exact ⟨v :: vs, by simp [convert_value_list, hv, hvs, except_ok_bind]⟩

/-- Dictionary-item conversion never fails. -/
theorem convert_dict_items_ok (xs : List DictItem) (acc : HMap Json) :
    ∃ m, convert_dict_items xs acc = .ok m := by
  cases xs with
  | nil => exact ⟨acc, rfl⟩
  | cons x xs =>
      cases x with
      | mk p key value =>
          obtain ⟨kv, hkv⟩ := convert_ast_to_value_ok key
          obtain ⟨v, hv⟩ := convert_ast_to_value_ok value
          obtain ⟨m, hm⟩ := convert_dict_items_ok xs (hmInsert acc (dict_key_of kv) v)
          exact ⟨m, by simp [convert_dict_items, hkv, hv, hm, except_ok_bind]⟩

end

mutual

/-- Variable resolution never fails. -/
theorem resolve_variable_references_ok (v : Json) (vars : HMap Json) :
    ∃ r, resolve_variable_references v vars = .ok r := by
  cases v with
  | str s =>
      cases h : hmGet vars s with
      | some w => exact ⟨w, by simp [resolve_variable_references, h]⟩
      | none => exact ⟨.str s, by simp [resolve_variable_references, h]⟩
  | arr items =>
      obtain ⟨ys, hys, _⟩ := resolve_value_list_ok items vars
      exact ⟨.arr ys, by simp [resolve_variable_references, hys, except_ok_bind]⟩
  | obj fields =>
      obtain ⟨gs, hgs, _⟩ := resolve_value_fields_ok fields vars
      exact ⟨.obj gs, by simp [resolve_variable_references, hgs, except_ok_bind]⟩
  | null => exact ⟨_, rfl⟩
  | bool b => exact ⟨_, rfl⟩
  | num n => exact ⟨_, rfl⟩

/-- Array resolution never fails and is element-wise. -/
theorem resolve_value_list_ok (items : List Json) (vars : HMap Json) :
    ∃ ys, resolve_value_list items vars = .ok ys ∧
      List.Forall₂ (fun x y => resolve_variable_references x vars = .ok y) items ys := by
  cases items with
  | nil => exact ⟨[], rfl, .nil⟩
  | cons x xs =>
      obtain ⟨y, hy⟩ := resolve_variable_references_ok x vars
      obtain ⟨ys, hys, hfa⟩ := resolve_value_list_ok xs vars
      exact ⟨y :: ys, by simp [resolve_value_list, hy, hys, except_ok_bind], .cons hy hfa⟩

/-- Object resolution never fails, is field-wise, and keeps the keys. -/
theorem resolve_value_fields_ok (fields : List (String × Json)) (vars : HMap Json) :
    ∃ gs, resolve_value_fields fields vars = .ok gs ∧
      List.Forall₂ (fun (p q : String × Json) =>
        q.1 = p.1 ∧ resolve_variable_references p.2 vars = .ok q.2) fields gs := by
  cases fields with
  | nil => exact ⟨[], rfl, .nil⟩
  | cons p ps =>
      obtain ⟨y, hy⟩ := resolve_variable_references_ok p.2 vars
      obtain ⟨gs, hgs, hfa⟩ := resolve_value_fields_ok ps vars
      exact ⟨(p.1, y) :: gs,
        by cases p; simp [resolve_value_fields, hy, hgs, except_ok_bind],
        .cons ⟨rfl, hy⟩ hfa⟩

end

/-- Variant test: does `convert_ast_to_value` have a dedicated conversion for
this node (every other variant falls into the placeholder arm)? -/
def converter_handles : AstNodeEnum → Bool
  | .stringLiteral _ => true
  | .multiLineStringLiteral _ => true
  | .numberLiteral _ => true
  | .floatLiteral _ => true
  | .boolLiteral _ => true
  | .nullLiteral _ => true
  | .symbol _ => true
  | .listStatement _ => true
  | .dictStatement _ => true
  | _ => false

/-- C6: the Compiler's AST-to-IR value conversion (convert_ast_to_value) is
total and never returns an error: a float literal whose value is not a finite
IEEE double converts to null, and every AST node variant without a dedicated
conversion yields a placeholder string value rather than a failure. -/
theorem claim_C6 :
    (∀ n : AstNodeEnum, ∃ v, convert_ast_to_value n = .ok v) ∧
    (∀ f : FloatLiteral, f.value.isFinite = false →
      convert_ast_to_value (.floatLiteral f) = .ok .null) ∧
    (∀ n : AstNodeEnum, converter_handles n = false →
      convert_ast_to_value n = .ok (.str (unsupported_placeholder n))) := by
  refine ⟨convert_ast_to_value_ok, ?_, ?_⟩
  · intro f hf
    simp [convert_ast_to_value, hf]
  · intro n hn
    cases n <;> first
      | rfl
      | simp [converter_handles] at hn

/-- Witness for C6 at concrete inputs: a non-finite float literal converts to
null, and a comment node (no dedicated conversion) converts to a placeholder
string. -/
theorem claim_C6_witness :
    convert_ast_to_value (.floatLiteral ⟨pos0, "nan", ⟨false, "NaN"⟩⟩) = .ok .null ∧
    convert_ast_to_value (.comment ⟨pos0, "c"⟩) =
      .ok (.str (unsupported_placeholder (.comment ⟨pos0, "c"⟩))) :=
  ⟨claim_C6.2.1 ⟨pos0, "nan", ⟨false, "NaN"⟩⟩ rfl, claim_C6.2.2 (.comment ⟨pos0, "c"⟩) rfl⟩

/-- C2: for every value and every variable table, variable resolution
(resolve_variable_references) replaces a string value with the table's stored
value exactly when the whole string equals an existing table key; a string
that only contains a key as a proper substring (that is, any string that is
not itself a key) and any non-string scalar is returned unchanged; arrays are
resolved element by element and objects field by field, recursively. -/
theorem claim_C2 :
    (∀ (vars : HMap Json) (s : String),
        resolve_variable_references (.str s) vars = .ok ((hmGet vars s).getD (.str s))) ∧
    (∀ vars : HMap Json, resolve_variable_references .null vars = .ok .null) ∧
    (∀ (vars : HMap Json) (b : Bool),
        resolve_variable_references (.bool b) vars = .ok (.bool b)) ∧
    (∀ (vars : HMap Json) (n : JNum),
        resolve_variable_references (.num n) vars = .ok (.num n)) ∧
    (∀ (vars : HMap Json) (items : List Json),
        ∃ ys, resolve_variable_references (.arr items) vars = .ok (.arr ys) ∧
          List.Forall₂ (fun x y => resolve_variable_references x vars = .ok y) items ys) ∧
    (∀ (vars : HMap Json) (fields : List (String × Json)),
        ∃ gs, resolve_variable_references (.obj fields) vars = .ok (.obj gs) ∧
          List.Forall₂ (fun (p q : String × Json) =>
            q.1 = p.1 ∧ resolve_variable_references p.2 vars = .ok q.2) fields gs) := by
  refine ⟨?_, fun _ => rfl, fun _ _ => rfl, fun _ _ => rfl, ?_, ?_⟩
  · intro vars s
    cases h : hmGet vars s <;> simp [resolve_variable_references, h]
  · intro vars items
    obtain ⟨ys, hys, hfa⟩ := resolve_value_list_ok items vars
    exact ⟨ys, by simp [resolve_variable_references, hys, except_ok_bind], hfa⟩
  · intro vars fields
    obtain ⟨gs, hgs, hfa⟩ := resolve_value_fields_ok fields vars
    exact ⟨gs, by simp [resolve_variable_references, hgs, except_ok_bind], hfa⟩


/-! Map lemmas and the emptiness predicates of claim C3. -/

/-- Lookup after insert finds the inserted value (last write wins). -/
theorem hmGet_hmInsert_self {α : Type} (m : HMap α) (k : String) (v : α) :
    hmGet (hmInsert m k v) k = some v := by
  induction m with
  | nil => simp [hmInsert, hmGet]
  | cons p rest ih =>
      obtain ⟨k', v'⟩ := p
      by_cases h : k' = k <;> simp [hmInsert, hmGet, h, ih]

/-- Insert preserves a value predicate that the new entry satisfies. -/
theorem hmInsert_all {α : Type} (p : String × α → Bool) (m : HMap α) (k : String) (v : α)
    (hm : m.all p = true) (hv : p (k, v) = true) : (hmInsert m k v).all p = true := by
  induction m with
  | nil => simp [hmInsert, hv]
  | cons q rest ih =>
      obtain ⟨k', v'⟩ := q
      simp only [List.all_cons, Bool.and_eq_true] at hm
      by_cases h : k' = k
      · simp [hmInsert, h, hv, hm.2]
      · simp [hmInsert, h, hm.1, ih hm.2]

/-- Emptiness discipline of claim C3 for one optional collection field:
absent, or present with at least one entry. -/
def optMapNonempty {α : Type} : Option (List α) → Bool
  | none => true
  | some l => !l.isEmpty

/-- Emptiness discipline of claim C3 for a node dictionary (its `with`
map). -/
def nodeDictOkB (nd : NodeDict) : Bool := optMapNonempty nd.with_

/-- Emptiness discipline of claim C3 for a graph dictionary and its
nodes. -/
def graphDictOkB (g : GraphDict) : Bool :=
  optMapNonempty g.properties && optMapNonempty g.nodes &&
  (g.nodes.getD []).all (fun p => nodeDictOkB p.2)

/-- Emptiness discipline of claim C3 for an operation dictionary. -/
def opDictOkB (o : OpDict) : Bool :=
  optMapNonempty o.metas && optMapNonempty o.inputs &&
  optMapNonempty o.outputs && optMapNonempty o.configs

/-- Emptiness discipline of claim C3 for a whole compilation result. -/
def compileResultOkB (r : CompileResult) : Bool :=
  optMapNonempty r.graphs && optMapNonempty r.ops && optMapNonempty r.vars &&
  (r.graphs.getD []).all graphDictOkB && (r.ops.getD []).all opDictOkB

/-- The omit-if-empty idiom always satisfies the emptiness discipline. -/
theorem optMapNonempty_if_isEmpty {α : Type} (l : List α) :
    optMapNonempty (if l.isEmpty then none else some l) = true := by
  cases h : l.isEmpty <;> simp [optMapNonempty, h]

/-- The omit-if-empty idiom preserves an all-entries predicate. -/
theorem all_getD_if_isEmpty {α : Type} (l : List α) (p : α → Bool) (h : l.all p = true) :
    (((if l.isEmpty then none else some l) : Option (List α)).getD []).all p = true := by
  cases hl : l.isEmpty <;> simp [hl, h]

/-! Totality and emptiness invariants of the compilation pipeline. -/

/-- Chained-attribute value conversion never fails. -/
theorem node_attr_value_to_value_ok (v : NodeAttrValue) :
    ∃ r, node_attr_value_to_value v = .ok r := by
  cases v with
  | symbol s => exact ⟨_, rfl⟩
  | string s => exact ⟨_, rfl⟩
  | list items =>
      obtain ⟨vs, hvs⟩ := convert_value_list_ok items
      exact ⟨.arr vs, by simp [node_attr_value_to_value, hvs, except_ok_bind]⟩

/-- Input extraction never fails. -/
theorem extract_node_inputs_ok (nb : NodeBlock) : ∃ i, extract_node_inputs nb = .ok i := by
  cases nb with
  | mk p n inputs attrs =>
      cases inputs with
      | none => exact ⟨none, rfl⟩
      | some idef =>
          cases idef with
          | tuple t => exact ⟨_, rfl⟩
          | keyValue kv => exact ⟨_, rfl⟩

/-- The attribute loop of attribute extraction never fails. -/
theorem extract_node_attributes_loop_ok (vars : HMap Json) :
    ∀ (attrs : List NodeAttr) (wp : HMap Json),
      ∃ m, extract_node_attributes_loop vars attrs wp = .ok m := by
  intro attrs
  induction attrs with
  | nil => intro wp; exact ⟨wp, rfl⟩
  | cons attr rest ih =>
      intro wp
      obtain ⟨v, hv⟩ := node_attr_value_to_value_ok attr.value
      obtain ⟨r, hr⟩ := resolve_variable_references_ok v vars
      obtain ⟨m, hm⟩ := ih (hmInsert wp attr.name.name r)
      exact ⟨m, by simp [extract_node_attributes_loop, hv, hr, except_ok_bind, hm]⟩

/-- Attribute extraction never fails, and never yields an empty map. -/
theorem extract_node_attributes_ok (nb : NodeBlock) (vars : HMap Json) :
    ∃ w, extract_node_attributes nb vars = .ok w ∧ optMapNonempty w = true := by
  cases nb with
  | mk p n inputs attrs =>
      cases attrs with
      | none => exact ⟨none, rfl, rfl⟩
      | some l =>
          obtain ⟨m, hm⟩ := extract_node_attributes_loop_ok vars l []
          cases hme : m.isEmpty with
          | true =>
              exact ⟨none,
                by simp [extract_node_attributes, NodeBlock.attrs, hm, except_ok_bind, hme], rfl⟩
          | false =>
              exact ⟨some m,
                by simp [extract_node_attributes, NodeBlock.attrs, hm, except_ok_bind, hme],
                by simp [optMapNonempty, hme]⟩

/-- The node-attribute loop never fails and never touches the `with` field
of the threaded node dictionary. -/
theorem convert_node_attrs_loop_ok (vars : HMap Json) :
    ∀ (attrs : List NodeAttr) (nd : NodeDict) (wp : HMap Json),
      ∃ nd' wp', convert_node_attrs_loop vars attrs nd wp = .ok (nd', wp') ∧
        nd'.with_ = nd.with_ := by
  intro attrs
  induction attrs with
  | nil => intro nd wp; exact ⟨nd, wp, rfl, rfl⟩
  | cons attr rest ih =>
      intro nd wp
      obtain ⟨v, hv⟩ := node_attr_value_to_value_ok attr.value
      obtain ⟨r, hr⟩ := resolve_variable_references_ok v vars
      by_cases h1 : attr.name.name = "version"
      · obtain ⟨nd', wp', hl, hw⟩ := ih { nd with version := value_to_string r } wp
        exact ⟨nd', wp', by simp [convert_node_attrs_loop, hv, hr, except_ok_bind, h1, hl],
          by simpa using hw⟩
      · by_cases h2 : attr.name.name = "as"
        · obtain ⟨nd', wp', hl, hw⟩ := ih { nd with alias_ := value_to_string r } wp
          exact ⟨nd', wp', by simp [convert_node_attrs_loop, hv, hr, except_ok_bind, h1, h2, hl],
            by simpa using hw⟩
        · by_cases h3 : attr.name.name = "override"
          · obtain ⟨nd', wp', hl, hw⟩ := ih { nd with override_flag := value_to_bool r } wp
            exact ⟨nd', wp',
              by simp [convert_node_attrs_loop, hv, hr, except_ok_bind, h1, h2, h3, hl],
              by simpa using hw⟩
          · obtain ⟨nd', wp', hl, hw⟩ := ih nd (hmInsert wp attr.name.name r)
            exact ⟨nd', wp',
              by simp [convert_node_attrs_loop, hv, hr, except_ok_bind, h1, h2, h3, hl], hw⟩

/-- Node conversion never fails, and its `with` map is absent or
nonempty. -/
theorem convert_node_def_ok (node_def : NodeDef) (vars : HMap Json) :
    ∃ d, convert_node_def node_def vars = .ok d ∧ nodeDictOkB d = true := by
  cases node_def with
  | mk p outs value =>
      cases value with
      | mk vp vname vinputs vattrs =>
          cases vattrs with
          | none =>
              cases vinputs with
              | none => exact ⟨_, rfl, rfl⟩
              | some idef =>
                  cases idef with
                  | tuple t => exact ⟨_, rfl, rfl⟩
                  | keyValue kv => exact ⟨_, rfl, rfl⟩
          | some attrs =>
              have main : ∀ nd0 : NodeDict, nd0.with_ = none →
                  ∃ d, (do
                    let r ← convert_node_attrs_loop vars attrs nd0 []
                    if r.2.isEmpty then Except.ok r.1
                    else Except.ok { r.1 with with_ := some r.2 }) = .ok d ∧
                    nodeDictOkB d = true := by
                intro nd0 hnd0
                obtain ⟨nd', wp', hl, hw⟩ := convert_node_attrs_loop_ok vars attrs nd0 []
                cases hwe : wp'.isEmpty with
                | true =>
                    refine ⟨nd', ?_, ?_⟩
                    · rw [hl]; simp [except_ok_bind, hwe]
                    · simp [nodeDictOkB, hw, hnd0, optMapNonempty]
                | false =>
                    refine ⟨{ nd' with with_ := some wp' }, ?_, ?_⟩
                    · rw [hl]; simp [except_ok_bind, hwe]
                    · simp [nodeDictOkB, optMapNonempty, hwe]
              cases vinputs with
              | none => exact main _ rfl
              | some idef =>
                  cases idef with
                  | tuple t => exact main _ rfl
                  | keyValue kv => exact main _ rfl

/-- The graph child loop never fails and keeps every stored node dictionary
within the emptiness discipline. -/
theorem convert_graph_children_ok (vars : HMap Json) :
    ∀ (cs : List AstNodeEnum) (props : HMap Json) (nodes : HMap NodeDict),
      nodes.all (fun p => nodeDictOkB p.2) = true →
      ∃ props' nodes', convert_graph_children vars cs props nodes = .ok (props', nodes') ∧
        nodes'.all (fun p => nodeDictOkB p.2) = true := by
  intro cs
  induction cs with
  | nil => intro props nodes h; exact ⟨props, nodes, rfl, h⟩
  | cons c rest ih =>
      intro props nodes h
      cases c
      case attrDef ad =>
        cases ad with
        | mk apos aname aval acond aelse =>
            simp only [convert_graph_children, AttrDef.value, AttrDef.name]
            split
            · rename_i nb
              obtain ⟨inp, hinp⟩ := extract_node_inputs_ok nb
              obtain ⟨w, hw, hwne⟩ := extract_node_attributes_ok nb vars
              obtain ⟨props', nodes', hrec, hinv⟩ := ih props
                (hmInsert nodes aname.name
                  { op_name := some nb.name_or_ref.name, ref_graph := none, version := none,
                    outputs := some [aname.name], inputs := inp, depends := none,
                    with_ := w, properties := none, alias_ := none, override_flag := none,
                    for_loop := none })
                (hmInsert_all _ _ _ _ h (by simp [nodeDictOkB, hwne]))
              exact ⟨props', nodes',
                by simp [hinp, hw, except_ok_bind, hrec], hinv⟩
            · obtain ⟨cv, hcv⟩ := convert_ast_to_value_ok aval
              obtain ⟨rv, hrv⟩ := resolve_variable_references_ok cv vars
              obtain ⟨props', nodes', hrec, hinv⟩ := ih (hmInsert props aname.name rv) nodes h
              exact ⟨props', nodes', by simp [hcv, hrv, except_ok_bind, hrec], hinv⟩
      case nodeDef ndef =>
        cases ndef with
        | mk npos nouts nval =>
            obtain ⟨d, hd, hdok⟩ := convert_node_def_ok (.mk npos nouts nval) vars
            cases nouts with
            | nil =>
                obtain ⟨props', nodes', hrec, hinv⟩ := ih props
                  (hmInsert nodes ("node_" ++ toString nodes.length) d)
                  (hmInsert_all _ _ _ _ h hdok)
                exact ⟨props', nodes',
                  by simp [convert_graph_children, NodeDef.outputs, hd, except_ok_bind, hrec],
                  hinv⟩
            | cons o os =>
                obtain ⟨props', nodes', hrec, hinv⟩ := ih props
                  (hmInsert nodes o.name d) (hmInsert_all _ _ _ _ h hdok)
                exact ⟨props', nodes',
                  by simp [convert_graph_children, NodeDef.outputs, hd, except_ok_bind, hrec],
                  hinv⟩
      all_goals (
        obtain ⟨props', nodes', hrec, hinv⟩ := ih props nodes h
        exact ⟨props', nodes', by simp [convert_graph_children, hrec], hinv⟩)

/-- Graph conversion never fails and satisfies the emptiness discipline. -/
theorem convert_graph_def_ok (graph_def : GraphDef) (vars : HMap Json) :
    ∃ g, convert_graph_def graph_def vars = .ok g ∧ graphDictOkB g = true := by
  obtain ⟨props, nodes, hrec, hinv⟩ := convert_graph_children_ok vars graph_def.children [] [] rfl
  refine ⟨{ properties := if props.isEmpty then none else some props,
            nodes := if nodes.isEmpty then none else some nodes,
            alias_ := graph_def.alias_.map (fun s => s.name),
            version := graph_def.version.bind extract_string_value,
            template_graph := graph_def.template_graph.map (fun s => s.name),
            template_version := graph_def.template_version.bind extract_string_value }, ?_, ?_⟩
  · simp only [convert_graph_def]
    rw [hrec]
    rfl
  · simp [graphDictOkB, optMapNonempty_if_isEmpty, all_getD_if_isEmpty _ _ hinv]

/-- The spec-item loop never fails. -/
theorem convert_op_spec_items_ok (vars : HMap Json) :
    ∀ (items : List OpSpecItem) (acc : HMap Json),
      ∃ m, convert_op_spec_items vars items acc = .ok m := by
  intro items
  induction items with
  | nil => intro acc; exact ⟨acc, rfl⟩
  | cons item rest ih =>
      intro acc
      obtain ⟨v, hv⟩ := convert_ast_to_value_ok item.value
      obtain ⟨r, hr⟩ := resolve_variable_references_ok v vars
      obtain ⟨m, hm⟩ := ih (hmInsert acc item.name r)
      exact ⟨m, by simp [convert_op_spec_items, hv, hr, except_ok_bind, hm]⟩

/-- Spec conversion never fails. -/
theorem convert_op_spec_ok (spec : OpSpec) (vars : HMap Json) :
    ∃ m, convert_op_spec spec vars = .ok m := by
  cases spec with
  | mk p n items =>
      cases items with
      | none => exact ⟨[], rfl⟩
      | some l =>
          obtain ⟨m, hm⟩ := convert_op_spec_items_ok vars l []
          exact ⟨m, by simp [convert_op_spec, OpSpec.items, hm]⟩

/-- The op-meta loop never fails. -/
theorem convert_op_meta_children_ok (vars : HMap Json) :
    ∀ (cs : List AttrDef) (metas : HMap Json),
      ∃ m, convert_op_meta_children vars cs metas = .ok m := by
  intro cs
  induction cs with
  | nil => intro metas; exact ⟨metas, rfl⟩
  | cons ad rest ih =>
      intro metas
      obtain ⟨v, hv⟩ := convert_ast_to_value_ok ad.value
      obtain ⟨r, hr⟩ := resolve_variable_references_ok v vars
      obtain ⟨m, hm⟩ := ih (hmInsert metas ad.name.name r)
      exact ⟨m, by simp [convert_op_meta_children, hv, hr, except_ok_bind, hm]⟩

/-- The op-spec section loop never fails. -/
theorem convert_op_specs_children_ok (vars : HMap Json) :
    ∀ (cs : List AstNodeEnum) (acc : HMap (HMap Json)),
      ∃ m, convert_op_specs_children vars cs acc = .ok m := by
  intro cs
  induction cs with
  | nil => intro acc; exact ⟨acc, rfl⟩
  | cons c rest ih =>
      intro acc
      cases c
      case opSpec spec =>
        obtain ⟨d, hd⟩ := convert_op_spec_ok spec vars
        obtain ⟨m, hm⟩ := ih (hmInsert acc spec.name.name d)
        exact ⟨m, by simp [convert_op_specs_children, hd, except_ok_bind, hm]⟩
      all_goals (
        obtain ⟨m, hm⟩ := ih acc
        exact ⟨m, by simp [convert_op_specs_children, hm]⟩)

/-- The op child loop never fails. -/
theorem convert_op_children_ok (vars : HMap Json) :
    ∀ (cs : List AstNodeEnum) (metas : HMap Json)
      (inputs outputs configs : HMap (HMap Json)),
      ∃ t, convert_op_children vars cs metas inputs outputs configs = .ok t := by
  intro cs
  induction cs with
  | nil => intro metas inputs outputs configs; exact ⟨_, rfl⟩
  | cons c rest ih =>
      intro metas inputs outputs configs
      cases c
      case opMeta o =>
        obtain ⟨m, hm⟩ := convert_op_meta_children_ok vars o.children metas
        obtain ⟨t, ht⟩ := ih m inputs outputs configs
        exact ⟨t, by simp [convert_op_children, hm, except_ok_bind, ht]⟩
      case opInput o =>
        obtain ⟨m, hm⟩ := convert_op_specs_children_ok vars o.children inputs
        obtain ⟨t, ht⟩ := ih metas m outputs configs
        exact ⟨t, by simp [convert_op_children, hm, except_ok_bind, ht]⟩
      case opOutput o =>
        obtain ⟨m, hm⟩ := convert_op_specs_children_ok vars o.children outputs
        obtain ⟨t, ht⟩ := ih metas inputs m configs
        exact ⟨t, by simp [convert_op_children, hm, except_ok_bind, ht]⟩
      case opConfig o =>
        obtain ⟨m, hm⟩ := convert_op_specs_children_ok vars o.children configs
        obtain ⟨t, ht⟩ := ih metas inputs outputs m
        exact ⟨t, by simp [convert_op_children, hm, except_ok_bind, ht]⟩
      all_goals (
        obtain ⟨t, ht⟩ := ih metas inputs outputs configs
        exact ⟨t, by simp [convert_op_children, ht]⟩)

/-- Operation conversion never fails and satisfies the emptiness
discipline. -/
theorem convert_op_def_ok (op_def : OpDef) (vars : HMap Json) :
    ∃ o, convert_op_def op_def vars = .ok o ∧ opDictOkB o = true := by
  obtain ⟨⟨metas, inputs, outputs, configs⟩, hrec⟩ :=
    convert_op_children_ok vars op_def.children
      (match op_def.version with
        | some version =>
            hmInsert (match op_def.alias_ with
              | some a => hmInsert [] "as" (.str a.name)
              | none => []) "version" (.str version)
        | none =>
            match op_def.alias_ with
            | some a => hmInsert [] "as" (.str a.name)
            | none => []) [] [] []
  refine ⟨{ metas := if metas.isEmpty then none else some metas,
            inputs := if inputs.isEmpty then none else some inputs,
            outputs := if outputs.isEmpty then none else some outputs,
            configs := if configs.isEmpty then none else some configs,
            graph := none }, ?_, ?_⟩
  · simp only [convert_op_def]
    rw [hrec]
    rfl
  · simp [opDictOkB, optMapNonempty_if_isEmpty]

/-! Variable-table characterization used by claim C1. -/

/-- Key computation described by claim C1, as amended: the alias name is
joined as written (untrimmed), only the attribute name is trimmed; an
unaliased block uses the trimmed bare attribute name. -/
def var_key_spec (alias_ : Option Symbol) (attr_name : String) : String :=
  match alias_ with
  | some a => a.name ++ "." ++ strTrim attr_name
  | none => strTrim attr_name

/-- Variable table described by claim C1, as amended: each attribute
definition inserts its key (last write wins) mapped to the converted value,
and an aliased block finally records `<alias>.as = <alias>`. -/
def var_table_spec (vd : VarDef) (vars : HMap Json) : HMap Json :=
  let after_attrs := vd.children.foldl (fun acc c =>
    match c with
    | .attrDef ad =>
        match convert_ast_to_value ad.value with
        | .ok v => hmInsert acc (var_key_spec vd.alias_ ad.name.name) v
        | .error _ => acc
    | _ => acc) vars
  match vd.alias_ with
  | some a => hmInsert after_attrs (a.name ++ ".as") (.str a.name)
  | none => after_attrs

/-- The attribute loop of `process_var_def` computes the fold described by
claim C1 (as amended); the converter is total, so the error arm of the fold
is never taken. -/
theorem process_var_def_children_spec (alias_ : Option Symbol) :
    ∀ (cs : List AstNodeEnum) (vars : HMap Json),
      process_var_def_children alias_ cs vars =
        .ok (cs.foldl (fun acc c =>
          match c with
          | .attrDef ad =>
              match convert_ast_to_value ad.value with
              | .ok v => hmInsert acc (var_key_spec alias_ ad.name.name) v
              | .error _ => acc
          | _ => acc) vars) := by
  intro cs
  induction cs with
  | nil => intro vars; rfl
  | cons c rest ih =>
      intro vars
      cases c
      case attrDef ad =>
        obtain ⟨v, hv⟩ := convert_ast_to_value_ok ad.value
        cases alias_ <;>
          simp [process_var_def_children, hv, except_ok_bind, ih, var_key_spec]
      all_goals simp [process_var_def_children, ih]

/-- `process_var_def` computes exactly the table described by claim C1 (as
amended). -/
theorem process_var_def_spec (vd : VarDef) (vars : HMap Json) :
    process_var_def vd vars = .ok (var_table_spec vd vars) := by
  cases vd with
  | mk p children alias_ offset =>
      cases alias_ with
      | none =>
          simp [process_var_def, VarDef.children, VarDef.alias_,
            process_var_def_children_spec, except_ok_bind, var_table_spec]
      | some a =>
          simp [process_var_def, VarDef.children, VarDef.alias_,
            process_var_def_children_spec, except_ok_bind, var_table_spec]

/-- Variable block processing never fails. -/
theorem process_var_def_ok (vd : VarDef) (vars : HMap Json) :
    ∃ m, process_var_def vd vars = .ok m :=
  ⟨_, process_var_def_spec vd vars⟩

/-- The module child loop never fails and keeps every produced graph and
operation dictionary within the emptiness discipline. -/
theorem compile_children_ok :
    ∀ (cs : List AstNodeEnum) (graphs : List GraphDict) (ops : List OpDict) (vars : HMap Json),
      graphs.all graphDictOkB = true → ops.all opDictOkB = true →
      ∃ gs os vs, compile_children cs graphs ops vars = .ok (gs, os, vs) ∧
        gs.all graphDictOkB = true ∧ os.all opDictOkB = true := by
  intro cs
  induction cs with
  | nil => intro graphs ops vars hg ho; exact ⟨graphs, ops, vars, rfl, hg, ho⟩
  | cons c rest ih =>
      intro graphs ops vars hg ho
      cases c
      case varDef vd =>
        obtain ⟨m, hm⟩ := process_var_def_ok vd vars
        obtain ⟨gs, os, vs, hrec, h1, h2⟩ := ih graphs ops m hg ho
        exact ⟨gs, os, vs, by simp [compile_children, hm, except_ok_bind, hrec], h1, h2⟩
      case graphDef gd =>
        obtain ⟨g, hgok, hgdisc⟩ := convert_graph_def_ok gd vars
        obtain ⟨gs, os, vs, hrec, h1, h2⟩ := ih (graphs ++ [g]) ops vars
          (by simp [List.all_append, hg, hgdisc]) ho
        exact ⟨gs, os, vs, by simp [compile_children, hgok, except_ok_bind, hrec], h1, h2⟩
      case opDef od =>
        obtain ⟨o, hook, hodisc⟩ := convert_op_def_ok od vars
        obtain ⟨gs, os, vs, hrec, h1, h2⟩ := ih graphs (ops ++ [o]) vars hg
          (by simp [List.all_append, ho, hodisc])
        exact ⟨gs, os, vs, by simp [compile_children, hook, except_ok_bind, hrec], h1, h2⟩
      all_goals (
        obtain ⟨gs, os, vs, hrec, h1, h2⟩ := ih graphs ops vars hg ho
        exact ⟨gs, os, vs, by simp [compile_children, hrec], h1, h2⟩)

/-- Module compilation never fails and satisfies the emptiness
discipline. -/
theorem compile_module_ok (m : Module) :
    ∃ r, compile_module m = .ok r ∧ compileResultOkB r = true := by
  obtain ⟨gs, os, vs, hrec, h1, h2⟩ := compile_children_ok m.children [] [] [] rfl rfl
  refine ⟨{ graphs := if gs.isEmpty then none else some gs,
            ops := if os.isEmpty then none else some os,
            vars := if vs.isEmpty then none else some vs,
            gos_version := "0.5.2", op_names := none, subgraphs := none }, ?_, ?_⟩
  · simp only [compile_module]
    rw [hrec]
    rfl
  · simp [compileResultOkB, optMapNonempty_if_isEmpty,
      all_getD_if_isEmpty _ _ h1, all_getD_if_isEmpty _ _ h2]


/-- C1 (amended): for every variable block processed by the Compiler, each
attribute definition inside it inserts into the variable table the key
formed as the alias name as written (untrimmed) + "." + the trimmed
attribute name when the block carries an alias, else the trimmed bare
attribute name, mapped to the converted value; a later insert with the same
key overwrites the earlier one with no duplicate-key error; and when the
block is aliased an additional entry `<alias>.as` mapped to the alias name
is inserted. -/
theorem claim_C1 :
    (∀ (vd : VarDef) (vars : HMap Json),
        process_var_def vd vars = .ok (var_table_spec vd vars)) ∧
    (∀ (m : HMap Json) (k : String) (v₁ v₂ : Json),
        hmGet (hmInsert (hmInsert m k v₁) k v₂) k = some v₂) :=
  ⟨process_var_def_spec, fun m k v₁ _ => hmGet_hmInsert_self (hmInsert m k v₁) k _⟩

/-- Counterexample to C1 as stated: with alias name " config" (leading
space) and attribute `name = 42`, the claimed key built from the trimmed
alias name, "config.name", is absent from the produced table; the code keys
the entry by the untrimmed alias name, " config.name", and likewise records
the alias marker under " config.as". -/
theorem claim_C1_counterexample :
    ∃ m, process_var_def
        (.mk pos0
          [.attrDef (.mk pos0 ⟨pos0, "name", .unknown⟩
            (.numberLiteral ⟨pos0, "42", 42⟩) none none)]
          (some ⟨pos0, " config", .unknown⟩) none) [] = .ok m ∧
      hmGet m "config.name" = none ∧
      hmGet m " config.name" = some (.num (.int 42)) ∧
      hmGet m " config.as" = some (.str " config") :=
  ⟨[(" config.name", .num (.int 42)), (" config.as", .str " config")], rfl, rfl, rfl, rfl⟩

/-- C3: for every successful compile, no field of the produced IR holds an
empty map or empty array: CompileResult.graphs/ops/vars,
GraphDict.properties/nodes, NodeDict.with, and
OpDict.metas/inputs/outputs/configs are each either absent (None) or contain
at least one entry; emptiness is always signalled by omitting the field. -/
theorem claim_C3 (ast : AstNodeEnum) (r : CompileResult) (h : compile ast = .ok r) :
    compileResultOkB r = true := by
  cases ast
  case module m =>
    obtain ⟨r', hr', hok⟩ := compile_module_ok m
    rw [show compile (.module m) = compile_module m from rfl, hr'] at h
    injection h with h
    subst h
    exact hok
  all_goals simp [compile] at h

/-- Witness for C3: compiling a module with one variable block yields a
result whose only present collection, `vars`, has one entry. -/
theorem claim_C3_witness :
    compileResultOkB
      ({ graphs := none, ops := none,
         vars := some [("name", Json.str "test")], gos_version := "0.5.2",
         op_names := none, subgraphs := none } : CompileResult) = true :=
  claim_C3 (.module (.mk pos0 [.varDef (.mk pos0
      [.attrDef (.mk pos0 ⟨pos0, "name", .unknown⟩ (.stringLiteral ⟨pos0, "test"⟩) none none)]
      none none)])) _ rfl

/-- C4: Compiler::compile returns an error if and only if the root AST node
is not the Module variant, and that error is the general error with message
"Expected Module as root AST node"; for every Module root, compilation
returns Ok (no other input causes a hard failure). -/
theorem claim_C4 :
    (∀ m : Module, ∃ r, compile (.module m) = .ok r) ∧
    (∀ ast : AstNodeEnum, (∀ m : Module, ast ≠ .module m) →
      compile ast = .error (.general "Expected Module as root AST node")) := by
  constructor
  · intro m
    obtain ⟨r, hr, _⟩ := compile_module_ok m
    exact ⟨r, hr⟩
  · intro ast h
    cases ast
    case module m => exact absurd rfl (h m)
    all_goals rfl

/-- Witness for C4: a comment root is rejected with the general error. -/
theorem claim_C4_witness :
    compile (.comment ⟨pos0, "x"⟩) = .error (.general "Expected Module as root AST node") :=
  claim_C4.2 (.comment ⟨pos0, "x"⟩) (fun _ h => nomatch h)

/-- C5: compiling a Module with no children yields a CompileResult whose
graphs, ops, and vars are all None and whose gos_version equals "0.5.2";
gos_version is "0.5.2" for every successful compile, regardless of input. -/
theorem claim_C5 :
    compile (.module (.mk pos0 [])) =
      .ok { graphs := none, ops := none, vars := none, gos_version := "0.5.2",
            op_names := none, subgraphs := none } ∧
    (∀ (ast : AstNodeEnum) (r : CompileResult),
      compile ast = .ok r → r.gos_version = "0.5.2") := by
  constructor
  · rfl
  · intro ast r h
    cases ast
    case module m =>
      cases m with
      | mk p children =>
          cases hc : compile_children children [] [] [] with
          | error e => simp [compile, compile_module, Module.children, hc,
              except_error_bind] at h
          | ok t =>
              obtain ⟨gs, os, vs⟩ := t
              simp only [compile, compile_module, Module.children, hc, except_ok_bind,
                Except.ok.injEq] at h
              subst h
              rfl
    all_goals simp [compile] at h

/-- Witness for C5: the universal gos_version fact applied to the empty
module, whose compilation result is given by the first conjunct. -/
theorem claim_C5_witness :
    ({ graphs := none, ops := none, vars := none, gos_version := "0.5.2",
       op_names := none, subgraphs := none } : CompileResult).gos_version = "0.5.2" :=
  claim_C5.2 (.module (.mk pos0 [])) _ claim_C5.1


/-- Append on strings is associative (on the underlying character lists). -/
theorem str_append_assoc (a b c : String) : (a ++ b) ++ c = a ++ (b ++ c) := by
  cases a with
  | mk da =>
      cases b with
      | mk db =>
          cases c with
          | mk dc =>
              show String.mk ((da ++ db) ++ dc) = String.mk (da ++ (db ++ dc))
              rw [List.append_assoc]

/-- C7: check_id accepts a string (returns it unchanged) exactly when it
matches the pattern ^[A-Za-z_\-$%@][A-Za-z_\-$%@.0-9]*$ — in particular it
rejects every string starting with a digit — and during decompilation any
identifier that fails this check aborts the whole call with an error
containing "Invalid identifier". -/
theorem claim_C7 :
    (∀ s : String, check_id s = .ok s ↔
      (∃ c cs, s.data = c :: cs ∧ is_id_start c = true ∧ cs.all is_id_continue = true)) ∧
    (∀ (s : String) (c : Char) (cs : List Char),
      s.data = c :: cs → c ∈ ['0','1','2','3','4','5','6','7','8','9'] →
      ∃ msg, check_id s = .error msg ∧
        ∃ pre post, msg = pre ++ "Invalid identifier" ++ post) ∧
    (∃ e, decompile_std default_decompile_options
        (.obj [("graphs", .arr [.obj [("as", .str "123invalid")]])]) = .error e ∧
      ∃ pre post, e = pre ++ "Invalid identifier" ++ post) := by
  refine ⟨?_, ?_, ?_⟩
  · intro s
    constructor
    · intro h
      by_cases hm : matches_valid_identifier s = true
      · cases hd : s.data with
        | nil => simp [matches_valid_identifier, hd] at hm
        | cons c cs =>
            simp only [matches_valid_identifier, hd, Bool.and_eq_true] at hm
            exact ⟨c, cs, rfl, hm.1, hm.2⟩
      · simp [check_id, hm] at h
    · rintro ⟨c, cs, hd, h1, h2⟩
      have hm : matches_valid_identifier s = true := by
        simp [matches_valid_identifier, hd, h1, h2]
      simp [check_id, hm]
  · intro s c cs hdata hmem
    have hstart : is_id_start c = false := by fin_cases hmem <;> rfl
    have hmf : matches_valid_identifier s = false := by
      simp [matches_valid_identifier, hdata, hstart]
    refine ⟨"Invalid identifier: " ++ s, by simp [check_id, hmf], "", ": " ++ s, ?_⟩
    rw [show ("" ++ "Invalid identifier" : String) = "Invalid identifier" from by decide,
      ← str_append_assoc,
      show ("Invalid identifier" ++ ": " : String) = "Invalid identifier: " from by decide]
  · exact ⟨"Invalid identifier: 123invalid", rfl, "", ": 123invalid", by decide⟩

/-- Witness for C7 at the concrete input "123invalid": the acceptance
characterization refuses it and the digit-rejection clause rejects it. -/
theorem claim_C7_witness :
    ∃ msg, check_id "123invalid" = .error msg ∧
      ∃ pre post, msg = pre ++ "Invalid identifier" ++ post :=
  claim_C7.2.1 "123invalid" '1' ['2','3','i','n','v','a','l','i','d'] rfl (by decide)

/-- C8: version-string validation (check_version) never rejects its input:
for every input string, including strings that do not match the
major.minor.patch numeric pattern, it returns Ok with the input string
unchanged; decompilation never fails with an invalid-version error. -/
theorem claim_C8 :
    (∀ s : String, check_version s = .ok s) ∧
    (matches_valid_version "abc" = false ∧ check_version "abc" = .ok "abc") := by
  refine ⟨?_, by decide, rfl⟩
  intro s
  unfold check_version
  split <;> rfl


/-- Scalar test on IR values (arrays and objects are the containers the
formatter recurses into). -/
def Json.isScalar : Json → Bool
  | .arr _ => false
  | .obj _ => false
  | _ => true

/-- Layout described by claim C9's overflow case: every item except the last
is followed by the separator (delimiter, newline, indent to the current
column). -/
def one_per_line (sep : String) : List String → String
  | [] => ""
  | [s] => s
  | s :: rest => s ++ sep ++ one_per_line sep rest

/-- Appending the empty string is the identity. -/
theorem str_append_empty (a : String) : a ++ "" = a := by
  cases a with
  | mk d => show String.mk (d ++ []) = String.mk d; rw [List.append_nil]

/-- Push is append of a singleton. -/
theorem str_push_eq (b : String) (c : Char) : b.push c = b ++ String.singleton c := rfl

/-- On a scalar, the formatter's nested-value dispatch appends exactly the
scalar rendering. -/
theorem pf_dfs_scalar (opts : DecompileOptions) (v : Json) (hs : v.isScalar = true)
    (buffer : String) (col deep : Nat) :
    pf_dfs opts v buffer col deep = .ok (buffer ++ format_value v, col + strLen (format_value v)) := by
  cases v with
  | arr items => simp [Json.isScalar] at hs
  | obj fields => simp [Json.isScalar] at hs
  | null => simp [pf_dfs]
  | bool b => simp [pf_dfs]
  | num n => simp [pf_dfs]
  | str s => simp [pf_dfs]

/-- Pushing the delimiter and indenting appends delimiter, newline and
column spaces (positive column). -/
theorem indent_push (x : String) (d : Char) (col : Nat) (hcol : 0 < col) :
    indent (x.push d) col = x ++ (String.singleton d ++ "\n" ++ spacesStr col) := by
  simp [indent, Nat.pos_iff_ne_zero.mp hcol, str_push_eq, str_append_assoc]

/-- One-step equation of `pf_format_loop` on an empty entry list. -/
theorem pf_format_loop_nil_eq (opts : DecompileOptions) (delimiter : Char)
    (buffer : String) (col cc : Nat) :
    pf_format_loop opts delimiter [] buffer col cc = .ok (buffer, cc) := rfl

/-- One-step equation of `pf_format_loop` on a nonempty entry list. -/
theorem pf_format_loop_cons_eq (opts : DecompileOptions) (delimiter : Char) (k : String)
    (v : Json) (rest : List (String × Json)) (buffer : String) (col cc : Nat) :
    pf_format_loop opts delimiter ((k, v) :: rest) buffer col cc =
      (if cc + strLen (k ++ "=" ++ format_value v) + 1 > opts.max_col then
        match pf_dfs opts v (buffer ++ (k ++ "=")) (col + strLen (k ++ "=")) 0 with
        | .error e => .error e
        | .ok (b2, cc2) =>
            pf_format_loop opts delimiter rest
              (if rest.isEmpty then b2 else indent (b2.push delimiter) col) col cc2
      else
        pf_format_loop opts delimiter rest
          (if rest.isEmpty then buffer ++ (k ++ "=" ++ format_value v)
           else indent ((buffer ++ (k ++ "=" ++ format_value v)).push delimiter) col) col
          (cc + strLen (k ++ "=" ++ format_value v) + 1)) := rfl

/-- The overflowing branch of `ParamFormatter::format` lays scalar-valued
entries out one per line, with the delimiter after every item except the
last. -/
theorem pf_format_loop_scalar (opts : DecompileOptions) (delimiter : Char) (col : Nat)
    (hcol : 0 < col) :
    ∀ (entries : List (String × Json)) (buffer : String) (cc : Nat),
      (∀ p ∈ entries, p.2.isScalar = true) →
      ∃ c, pf_format_loop opts delimiter entries buffer col cc =
        .ok (buffer ++ one_per_line (String.singleton delimiter ++ "\n" ++ spacesStr col)
          (entries.map (fun p => p.1 ++ "=" ++ format_value p.2)), c) := by
  intro entries
  induction entries with
  | nil =>
      intro buffer cc _
      exact ⟨cc, by simp [pf_format_loop_nil_eq, one_per_line, str_append_empty]⟩
  | cons p rest ih =>
      intro buffer cc hs
      obtain ⟨k, v⟩ := p
      have hv : v.isScalar = true := hs (k, v) (by simp)
      have hrest : ∀ q ∈ rest, q.2.isScalar = true := fun q hq => hs q (by simp [hq])
      by_cases hover : cc + strLen (k ++ "=" ++ format_value v) + 1 > opts.max_col
      · cases rest with
        | nil =>
            refine ⟨col + strLen (k ++ "=") + strLen (format_value v), ?_⟩
            rw [pf_format_loop_cons_eq, if_pos hover, pf_dfs_scalar opts v hv]
            simp [pf_format_loop_nil_eq, one_per_line, str_append_assoc]
        | cons q qs =>
            obtain ⟨c, hc⟩ := ih (buffer ++ (k ++ "=" ++ format_value v) ++
              (String.singleton delimiter ++ "\n" ++ spacesStr col))
              (col + strLen (k ++ "=") + strLen (format_value v)) hrest
            refine ⟨c, ?_⟩
            rw [pf_format_loop_cons_eq, if_pos hover, pf_dfs_scalar opts v hv]
            simp only [List.isEmpty_cons, Bool.false_eq_true, if_false,
              indent_push _ _ _ hcol]
            simp only [str_append_assoc] at hc ⊢
            rw [hc]
            simp [one_per_line, str_append_assoc]
      · cases rest with
        | nil =>
            refine ⟨cc + strLen (k ++ "=" ++ format_value v) + 1, ?_⟩
            rw [pf_format_loop_cons_eq, if_neg hover]
            simp [pf_format_loop_nil_eq, one_per_line]
        | cons q qs =>
            obtain ⟨c, hc⟩ := ih (buffer ++ (k ++ "=" ++ format_value v) ++
              (String.singleton delimiter ++ "\n" ++ spacesStr col))
              (cc + strLen (k ++ "=" ++ format_value v) + 1) hrest
            refine ⟨c, ?_⟩
            rw [pf_format_loop_cons_eq, if_neg hover]
            simp only [List.isEmpty_cons, Bool.false_eq_true, if_false,
              indent_push _ _ _ hcol]
            simp only [str_append_assoc] at hc ⊢
            rw [hc]
            simp [one_per_line, str_append_assoc]

/-- C9 (amended): in the Decompiler's key=value parameter formatter
(ParamFormatter::format), with options indent > 0, max_col = N and a
positive current column: when the current column plus the length of the
single-line comma join of the items is at most N, the items are emitted as
that single-line join; once it exceeds N (for scalar-valued items), the
items are emitted one item per line, with a comma after every item except
the last. The output/input list helper (NodeDecompiler::indent_list)
instead flow-wraps: it starts a new line only when its running column
exceeds N, so several items can share a line. -/
theorem claim_C9 (opts : DecompileOptions) (entries : List (String × Json))
    (delimiter : Char) (buffer : String) (col : Nat)
    (hind : 0 < opts.indent) (hcol : 0 < col)
    (hscalar : ∀ p ∈ entries, p.2.isScalar = true) :
    (col + strLen (String.intercalate (String.singleton delimiter)
        (entries.map (fun p => p.1 ++ "=" ++ format_value p.2))) ≤ opts.max_col →
      pf_format opts (.obj entries) delimiter buffer col =
        .ok (buffer ++ String.intercalate (String.singleton delimiter)
            (entries.map (fun p => p.1 ++ "=" ++ format_value p.2)),
          col + strLen (String.intercalate (String.singleton delimiter)
            (entries.map (fun p => p.1 ++ "=" ++ format_value p.2))))) ∧
    (col + strLen (String.intercalate (String.singleton delimiter)
        (entries.map (fun p => p.1 ++ "=" ++ format_value p.2))) > opts.max_col →
      ∃ c, pf_format opts (.obj entries) delimiter buffer col =
        .ok (buffer ++ one_per_line (String.singleton delimiter ++ "\n" ++ spacesStr col)
          (entries.map (fun p => p.1 ++ "=" ++ format_value p.2)), c)) := by
  constructor
  · intro hle
    unfold pf_format
    simp only [Json.as_object]
    split
    · rename_i hcond
      exfalso
      simp only [Bool.and_eq_true, decide_eq_true_eq] at hcond
      omega
    · rfl
  · intro hgt
    unfold pf_format
    simp only [Json.as_object]
    split
    · exact pf_format_loop_scalar opts delimiter col hcol entries buffer col hscalar
    · rename_i hcond
      exfalso
      simp only [Bool.and_eq_true, decide_eq_true_eq, not_and, not_lt] at hcond
      have := hcond hgt
      omega

/-- Counterexample to C9 as stated for the co-cited output-list helper
NodeDecompiler::indent_list: with indent = 1, max_col = 10, current column 1
and ten one-character items, the single-line join (length 19) exceeds the
budget, yet the emitted text holds several items per line — it contains 3
newlines instead of the 9 that one item per line (a comma after every item
except the last) would produce; its first line is "a,b," with two items. -/
theorem claim_C9_counterexample :
    (0 < (1 : Nat)) ∧
    1 + strLen (String.intercalate "," ["a","b","c","d","e","f","g","h","i","j"]) > 10 ∧
    nd_indent_list ⟨1, 10, false, false⟩ ["a","b","c","d","e","f","g","h","i","j"] 1 "," ""
      = ("a,b,\n  c,d,e,\n  f,g,h,\n  i,j", 6) ∧
    ("a,b,\n  c,d,e,\n  f,g,h,\n  i,j").data.count '\n' ≠
      (["a","b","c","d","e","f","g","h","i","j"].length - 1) := by
  refine ⟨Nat.one_pos, by decide, by decide, by decide⟩

/-- Witness for C9 at a concrete overflowing input: two null-valued entries
at column 2 with budget 3 are laid out one per line with a trailing comma
on the first. -/
theorem claim_C9_witness :
    ∃ c, pf_format ⟨1, 3, false, false⟩ (.obj [("a", Json.null), ("b", Json.null)]) ',' "" 2 =
      .ok ("a=null,\n  b=null", c) := by
  obtain ⟨c, hc⟩ := (claim_C9 ⟨1, 3, false, false⟩ [("a", Json.null), ("b", Json.null)]
    ',' "" 2 (by decide) (by decide) (by decide)).2 (by decide)
  exact ⟨c, by rw [hc]; rfl⟩


/-- Lookup skips an optional serialized field of a different name. -/
theorem hmGet_jfield_append (name : String) (v : Option Json)
    (rest : List (String × Json)) (k : String) (h : name ≠ k) :
    hmGet (jfield name v ++ rest) k = hmGet rest k := by
  cases v <;> simp [jfield, hmGet, h]

/-- Lookup finds a present optional serialized field of the same name. -/
theorem hmGet_jfield_self (name : String) (v : Json) (rest : List (String × Json)) :
    hmGet (jfield name (some v) ++ rest) name = some v := by
  simp [jfield, hmGet]

/-- Lookup on an object with one more leading field. -/
theorem jget_cons (a : String) (v : Json) (fs : List (String × Json)) (k : String) :
    Json.get (.obj ((a, v) :: fs)) k = if a = k then some v else Json.get (.obj fs) k := by
  simp [Json.get, hmGet]

/-- Lookup on an object skips a leading field with a different key. -/
theorem jget_cons_ne (a : String) (v : Json) (fs : List (String × Json)) (k : String)
    (h : a ≠ k) : Json.get (.obj ((a, v) :: fs)) k = Json.get (.obj fs) k := by
  simp [Json.get, hmGet, h]

/-- Graph rendering depends on its input object only through the keys it
reads: template_graph, template_version, property, nodes, as, version. -/
theorem decompile_graph_congr (opts : DecompileOptions) (buffer : String) (g1 g2 : Json)
    (hobj : g1.is_object = g2.is_object)
    (h1 : g1.get "template_graph" = g2.get "template_graph")
    (h2 : g1.get "template_version" = g2.get "template_version")
    (h3 : g1.get "property" = g2.get "property")
    (h4 : g1.get "nodes" = g2.get "nodes")
    (h5 : g1.get "as" = g2.get "as")
    (h6 : g1.get "version" = g2.get "version") :
    decompile_graph opts buffer g1 = decompile_graph opts buffer g2 := by
  unfold decompile_graph
  rw [hobj, h1, h2, h3, h4, h5, h6]

/-- C10: decompile_graph renders a graph's properties line only when the
graph JSON object contains the key "property"; a graph object whose
properties are stored under the key "properties" — which is how the
Compiler serializes GraphDict.properties — decompiles with no properties
line at all, so graph properties emitted by this Compiler are silently
dropped by the Decompiler. Concretely: the serializer never produces a
"property" key, it stores the map under "properties", and a leading
"properties" field is ignored by decompile_graph; a sample graph with one
property decompiles to text not mentioning it. -/
theorem claim_C10 :
    (∀ g : GraphDict, Json.get (GraphDict.toJson g) "property" = none) ∧
    (∀ g : GraphDict, Json.get (GraphDict.toJson g) "properties" =
      g.properties.map Json.obj) ∧
    (∀ (opts : DecompileOptions) (buffer : String) (v : Json)
        (fields : List (String × Json)),
      decompile_graph opts buffer (.obj (("properties", v) :: fields)) =
        decompile_graph opts buffer (.obj fields)) ∧
    decompile_graph default_decompile_options ""
      (GraphDict.toJson
        { properties := some [("k", Json.str "v")], nodes := none,
          alias_ := some "g", version := none, template_graph := none,
          template_version := none }) = .ok "graph \x7b\n\x7d as g;" := by
  refine ⟨?_, ?_, ?_, ?_⟩
  · intro g
    simp only [GraphDict.toJson, Json.get, List.append_assoc]
    rw [hmGet_jfield_append "properties" _ _ "property" (by decide),
      hmGet_jfield_append "nodes" _ _ "property" (by decide),
      hmGet_jfield_append "as" _ _ "property" (by decide),
      hmGet_jfield_append "version" _ _ "property" (by decide),
      hmGet_jfield_append "template_graph" _ _ "property" (by decide)]
    cases g.template_version <;> rfl
  · intro g
    cases hp : g.properties with
    | none =>
        simp only [GraphDict.toJson, hp, Option.map_none, Json.get, List.append_assoc]
        rw [show jfield "properties" (Option.map Json.obj none) = [] from rfl, List.nil_append,
          hmGet_jfield_append "nodes" _ _ "properties" (by decide),
          hmGet_jfield_append "as" _ _ "properties" (by decide),
          hmGet_jfield_append "version" _ _ "properties" (by decide),
          hmGet_jfield_append "template_graph" _ _ "properties" (by decide)]
        cases g.template_version <;> rfl
    | some m =>
        simp only [GraphDict.toJson, hp, Option.map_some, Json.get]
        exact hmGet_jfield_self "properties" (Json.obj m) _
  · intro opts buffer v fields
    exact decompile_graph_congr opts buffer _ _ rfl
      (jget_cons_ne _ _ _ _ (by decide)) (jget_cons_ne _ _ _ _ (by decide))
      (jget_cons_ne _ _ _ _ (by decide)) (jget_cons_ne _ _ _ _ (by decide))
      (jget_cons_ne _ _ _ _ (by decide)) (jget_cons_ne _ _ _ _ (by decide))
  · rfl


end Gos
